import Mathlib

/-!
# Verification of the msch schematic codec

A shallow embedding of the msch repository's schematic codec
(`src/src/Schematic.ts` and its helpers) in Lean 4, together with theorems
settling the specification's claims about it.

Byte sequences are modelled as `List Nat` (each element a byte value, `< 256`).
UTF-8 strings are modelled by their encoded byte sequences.  Components of the
repository whose source is not available (`SmartBuffer`, `Point2`, `TypeIO`,
`Tile`) and the external services (zlib, the JSON parser) are modelled from the
specification; each such definition carries a doc comment saying so.
-/

namespace Msch

/-- A byte value (0..255). -/
abbrev Byte := Nat

/-- A byte sequence: the model of Node `Buffer` contents. -/
abbrev Bytes := List Nat

/-- A UTF-8 string, modelled by its encoded byte sequence. -/
abbrev UStr := List Nat

/-! ## Big-endian integer encodings

Modelled from the spec (§4.1 Byte Cursor): SmartBuffer's source is not under
`src/`; the spec prescribes big-endian 8/16/32/64-bit integer writes and
length-prefixed UTF-8 strings (16-bit length prefix). -/

/-- Write one unsigned byte (Node `writeUInt8`, value taken mod 256). -/
def u8enc (n : Nat) : Bytes := [n % 256]

/-- Write an unsigned 16-bit big-endian integer. -/
def u16enc (n : Nat) : Bytes := [n / 256 % 256, n % 256]

/-- Write an unsigned 32-bit big-endian integer. -/
def u32enc (n : Nat) : Bytes :=
  [n / 16777216 % 256, n / 65536 % 256, n / 256 % 256, n % 256]

/-- Write a signed 32-bit big-endian integer (two's complement). -/
def i32enc (v : Int) : Bytes := u32enc (v % 4294967296).toNat

/-- Write an unsigned 64-bit big-endian integer. -/
def u64enc (n : Nat) : Bytes := u32enc (n / 4294967296) ++ u32enc (n % 4294967296)

/-- Write a signed 64-bit big-endian integer (two's complement). -/
def i64enc (v : Int) : Bytes := u64enc (v % 18446744073709551616).toNat

/-- Length-prefixed UTF-8 string write (16-bit big-endian byte-length prefix),
modelled from the spec (§4.1). -/
def writeUTF8 (s : UStr) : Bytes := u16enc s.length ++ s

/-! ## Decode results

`Schematic.read` in the source returns `Schematic | string`: structural decode
failures are *returned* as descriptive strings, while some conditions *throw*
(reading past the end of a buffer, `zlib.inflateSync` on corrupt data, the
`fail(...)` call in `sortTiles`, JavaScript `TypeError`/`RangeError`).  The
model keeps the two channels distinct: `err` is a returned error string
(represented structurally), `fatal` is a thrown exception. -/

/-- Structural content of the error strings returned by `Schematic.read`. -/
inductive DecErr : Type
  | badMagic
  | badVersion (v : Int)
  | tooLarge
  | tooManyTiles (max : Nat) (n : Int)
  | invalidRotation (r : Int)
  | outOfBounds (x y : Int)
  | unknownConfigTag (t : Nat)
deriving DecidableEq

/-- Thrown (not returned) failures: buffer overread, JavaScript `TypeError` /
`RangeError`, the uncaught `zlib.inflateSync` error, and the `fail(...)` call
in `Schematic.sortTiles`. -/
inductive Fault : Type
  | overread
  | typeError
  | rangeError
  | zlibError
  | sortFail (x y : Int) (w h : Nat)
deriving DecidableEq

/-- Result of one step of sequential decoding: a value plus the remaining
bytes, a returned error, or a thrown fault. -/
inductive Res (α : Type) : Type
  | ok (a : α) (rest : Bytes)
  | err (e : DecErr)
  | fatal (f : Fault)
deriving DecidableEq

/-- The sequential decoding monad: a function from the remaining bytes to a
result.  Models reading from a `SmartBuffer` whose cursor only moves
forward. -/
def DecM (α : Type) : Type := Bytes → Res α

namespace DecM

def pure (a : α) : DecM α := fun b => .ok a b

def bind (m : DecM α) (f : α → DecM β) : DecM β := fun b =>
  match m b with
  | .ok a r => f a r
  | .err e => .err e
  | .fatal f' => .fatal f'

instance : Monad DecM where
  pure := DecM.pure
  bind := DecM.bind

/-- Return a descriptive error (the source's `return "..."`). -/
def throwErr (e : DecErr) : DecM α := fun _ => .err e

/-- Throw a fault (an uncaught JavaScript exception). -/
def throwFatal (f : Fault) : DecM α := fun _ => .fatal f

@[simp] theorem pure_run (a : α) (b : Bytes) :
    (Pure.pure a : DecM α) b = .ok a b := rfl

@[simp] theorem bind_run (m : DecM α) (f : α → DecM β) (b : Bytes) :
    (m >>= f) b = match m b with
      | .ok a r => f a r
      | .err e => .err e
      | .fatal f' => .fatal f' := rfl

@[simp] theorem throwErr_run (e : DecErr) (b : Bytes) :
    (throwErr e : DecM α) b = .err e := rfl

@[simp] theorem throwFatal_run (f : Fault) (b : Bytes) :
    (throwFatal f : DecM α) b = .fatal f := rfl

end DecM

/-! ## Primitive readers (Byte Cursor reads)

Modelled from the spec (§4.1): big-endian reads; "Reading past the end fails
with an `OutOfBounds` condition" — a thrown exception in Node, hence
`Fault.overread` here. -/

/-- Read one byte. -/
def readByte : DecM Nat := fun b =>
  match b with
  | [] => .fatal .overread
  | x :: r => .ok x r

/-- Read an unsigned 8-bit integer. -/
def readUInt8 : DecM Nat := readByte

/-- Read a signed 8-bit integer. -/
def readInt8 : DecM Int := do
  let b ← readByte
  Pure.pure (if b < 128 then (b : Int) else (b : Int) - 256)

/-- Read an unsigned 16-bit big-endian integer. -/
def readUInt16BE : DecM Nat := do
  let a ← readByte
  let b ← readByte
  Pure.pure (a * 256 + b)

/-- Read an unsigned 32-bit big-endian integer. -/
def readUInt32BE : DecM Nat := do
  let a ← readByte
  let b ← readByte
  let c ← readByte
  let d ← readByte
  Pure.pure (a * 16777216 + b * 65536 + c * 256 + d)

/-- Read a signed 32-bit big-endian integer. -/
def readInt32BE : DecM Int := do
  let n ← readUInt32BE
  Pure.pure (if n < 2147483648 then (n : Int) else (n : Int) - 4294967296)

/-- Read `n` raw bytes. -/
def readBytes (n : Nat) : DecM Bytes := fun b =>
  if n ≤ b.length then .ok (b.take n) (b.drop n) else .fatal .overread

/-- Read a length-prefixed UTF-8 string. -/
def readUTF8 : DecM UStr := do
  let n ← readUInt16BE
  readBytes n

/-- Read `n` values with the reader `m`, in sequence. -/
def readList (m : DecM α) : Nat → DecM (List α)
  | 0 => Pure.pure []
  | n + 1 => do
    let a ← m
    let rest ← readList m n
    Pure.pure (a :: rest)

/-! ### Reader/writer inverse lemmas -/

@[simp] theorem readByte_cons (x : Nat) (r : Bytes) :
    readByte (x :: r) = .ok x r := rfl

@[simp] theorem readByte_nil : readByte [] = .fatal .overread := rfl

theorem readUInt8_u8enc (n : Nat) (h : n < 256) (r : Bytes) :
    readUInt8 (u8enc n ++ r) = .ok n r := by
  simp [readUInt8, u8enc, Nat.mod_eq_of_lt h]

theorem readInt8_u8enc (n : Nat) (h : n < 128) (r : Bytes) :
    readInt8 (u8enc n ++ r) = .ok (n : Int) r := by
  have h' : n < 256 := by omega
  simp [readInt8, u8enc, readByte, DecM.bind_run, Nat.mod_eq_of_lt h']
  omega

theorem readUInt16BE_u16enc (n : Nat) (h : n < 65536) (r : Bytes) :
    readUInt16BE (u16enc n ++ r) = .ok n r := by
  simp [readUInt16BE, u16enc, readByte, DecM.bind_run]
  omega

theorem readUInt32BE_u32enc (n : Nat) (h : n < 4294967296) (r : Bytes) :
    readUInt32BE (u32enc n ++ r) = .ok n r := by
  simp [readUInt32BE, u32enc, readByte, DecM.bind_run]
  omega

theorem readInt32BE_i32enc (v : Int) (h1 : -2147483648 ≤ v) (h2 : v < 2147483648)
    (r : Bytes) :
    readInt32BE (i32enc v ++ r) = .ok v r := by
  have hlt : (v % 4294967296).toNat < 4294967296 := by omega
  simp only [readInt32BE, i32enc, DecM.bind_run, readUInt32BE_u32enc _ hlt]
  have hcase : v % 4294967296 = v ∨ v % 4294967296 = v + 4294967296 := by omega
  rcases hcase with hc | hc <;> simp only [DecM.pure_run] <;> congr 1 <;> omega

theorem readInt32BE_i32enc_nat (n : Nat) (h : n < 2147483648) (r : Bytes) :
    readInt32BE (i32enc n ++ r) = .ok (n : Int) r := by
  apply readInt32BE_i32enc <;> omega

theorem readBytes_append (s : Bytes) (r : Bytes) :
    readBytes s.length (s ++ r) = .ok s r := by
  simp [readBytes, List.take_left, List.drop_left]

theorem readUTF8_writeUTF8 (s : UStr) (h : s.length < 65536) (r : Bytes) :
    readUTF8 (writeUTF8 s ++ r) = .ok s r := by
  simp only [readUTF8, writeUTF8, List.append_assoc, DecM.bind_run,
    readUInt16BE_u16enc _ h]
  exact readBytes_append s r

/-- Generic list round-trip: if a reader inverts an encoder on every element of
`l`, then `readList` inverts the concatenated encoding. -/
theorem readList_flatMap (m : DecM α) (enc : α → Bytes) (l : List α) (r : Bytes)
    (H : ∀ a ∈ l, ∀ r', m (enc a ++ r') = .ok a r') :
    readList m l.length (l.flatMap enc ++ r) = .ok l r := by
  induction l with
  | nil => simp [readList]
  | cons a l ih =>
    have ha := H a (by simp)
    simp only [List.flatMap_cons, List.length_cons, readList, List.append_assoc,
      DecM.bind_run, ha]
    rw [ih (fun a ha' r' => H a (by simp [ha']) r')]
    rfl

/-! ## Coordinate packing -/

/-- Sign-extend a 16-bit value. -/
def sext16 (n : Nat) : Int := if n % 65536 < 32768 then (n % 65536 : Nat) else (n % 65536 : Int) - 65536

namespace Point2

/-- Modelled from the spec: `Point2.pack` is not under `src/`; the spec (§4.2,
§3) prescribes a lossless packing of an (x, y) pair into one integer with 16
bits per axis, stored as a signed 32-bit value (`writeInt32BE` in
`Schematic.write`).  Modelled as the high half holding x and the low half
holding y, each a two's-complement 16-bit field, the whole interpreted as a
signed 32-bit integer. -/
def pack (x y : Int) : Int :=
  if (x % 65536).toNat * 65536 + (y % 65536).toNat < 2147483648
  then ((x % 65536).toNat * 65536 + (y % 65536).toNat : Nat)
  else ((x % 65536).toNat * 65536 + (y % 65536).toNat : Nat) - 4294967296

/-- Modelled from the spec: inverse of `pack`; splits a signed 32-bit value
into two sign-extended 16-bit halves. -/
def unpack (v : Int) : Int × Int :=
  (sext16 ((v % 4294967296).toNat / 65536), sext16 (v % 4294967296).toNat)

theorem pack_in_i32_range (x y : Int) :
    -2147483648 ≤ pack x y ∧ pack x y < 2147483648 := by
  unfold pack
  have hx : (x % 65536).toNat < 65536 := by omega
  have hy : (y % 65536).toNat < 65536 := by omega
  split <;> omega

theorem unpack_pack (x y : Int)
    (hx1 : -32768 ≤ x) (hx2 : x < 32768) (hy1 : -32768 ≤ y) (hy2 : y < 32768) :
    unpack (pack x y) = (x, y) := by
  unfold unpack pack sext16
  have hx : (x % 65536).toNat < 65536 := by omega
  have hy : (y % 65536).toNat < 65536 := by omega
  have hxv : x % 65536 = x ∨ x % 65536 = x + 65536 := by omega
  have hyv : y % 65536 = y ∨ y % 65536 = y + 65536 := by omega
  split <;> simp only [Prod.mk.injEq] <;> refine ⟨?_, ?_⟩ <;> split <;> omega

end Point2

/-! ## Tagged Configuration Codec

The tag values and payload shapes come from `src/classes/BlockConfig.ts`
(`BlockConfigType` and `BlockConfigMapping`); the byte-level codec (`TypeIO`)
is not under `src/` and is modelled from the spec (§3 table, §4.3, §6).
Floating-point payloads are carried as their raw bit patterns (a `Nat` below
`2^32` resp. `2^64`), since the codec only moves those bytes.  Array counts
use a fixed signed 32-bit prefix; the spec (§4.3) requires a fixed count type
consistent between encode and decode and leaves the exact width open (§9). -/

/-- The configuration value: a tagged union, one constructor per live tag of
`BlockConfigType` (`src/classes/BlockConfig.ts`).  Tag 12's historical
duplicate name `buildingbox` has an identical representation and is the
`building` constructor.  Tags 9 and 13 are reserved and have no constructor. -/
inductive BlockConfig : Type
  | null
  | int (v : Int)
  | long (v : Int)
  | float (bits : Nat)
  | string (s : Option UStr)
  | content (t : Nat) (id : Nat)
  | intarray (vs : List Int)
  | point (x y : Int)
  | pointarray (ps : List (Int × Int))
  | boolean (b : Bool)
  | double (bits : Nat)
  | building (x y : Int)
  | bytearray (bs : List Nat)
  | booleanarray (bs : List Bool)
  | unit (v : Int)
deriving DecidableEq

namespace TypeIO

/-- Modelled from the spec (§4.3, §6): `TypeIO.writeObject` writes the tag
byte implied by the value's variant followed by its payload. -/
def writeObject : BlockConfig → Bytes
  | .null => u8enc 0
  | .int v => u8enc 1 ++ i32enc v
  | .long v => u8enc 2 ++ i64enc v
  | .float bits => u8enc 3 ++ u32enc bits
  | .string none => u8enc 4 ++ u8enc 0
  | .string (some s) => u8enc 4 ++ u8enc 1 ++ writeUTF8 s
  | .content t id => u8enc 5 ++ u8enc t ++ u16enc id
  | .intarray vs => u8enc 6 ++ i32enc vs.length ++ vs.flatMap i32enc
  | .point x y => u8enc 7 ++ i32enc (Point2.pack x y)
  | .pointarray ps => u8enc 8 ++ i32enc ps.length
      ++ ps.flatMap (fun p => i32enc (Point2.pack p.1 p.2))
  | .boolean b => u8enc 10 ++ u8enc (if b then 1 else 0)
  | .double bits => u8enc 11 ++ u64enc bits
  | .building x y => u8enc 12 ++ i32enc (Point2.pack x y)
  | .bytearray bs => u8enc 14 ++ i32enc bs.length ++ bs.flatMap u8enc
  | .booleanarray bs => u8enc 16 ++ i32enc bs.length
      ++ bs.flatMap (fun b => u8enc (if b then 1 else 0))
  | .unit v => u8enc 17 ++ i32enc v

/-- Read an unsigned 64-bit big-endian integer (for the double payload). -/
def readUInt64BE : DecM Nat := do
  let hi ← readUInt32BE
  let lo ← readUInt32BE
  Pure.pure (hi * 4294967296 + lo)

/-- Read a signed 64-bit big-endian integer. -/
def readInt64BE : DecM Int := do
  let n ← readUInt64BE
  Pure.pure (if n < 9223372036854775808 then (n : Int)
             else (n : Int) - 18446744073709551616)

/-- Read an array count (signed 32-bit); a negative count makes the element
loop read zero elements. -/
def readCount : DecM Nat := do
  let n ← readInt32BE
  Pure.pure n.toNat

/-- Modelled from the spec (§4.3): `TypeIO.readObject` reads one tag byte and
dispatches to exactly one payload reader; an unrecognized tag fails with the
`UnknownConfigTag` result. -/
def readObject : DecM BlockConfig := do
  let tag ← readUInt8
  match tag with
  | 0 => Pure.pure .null
  | 1 => do let v ← readInt32BE; Pure.pure (.int v)
  | 2 => do let v ← readInt64BE; Pure.pure (.long v)
  | 3 => do let bits ← readUInt32BE; Pure.pure (.float bits)
  | 4 => do
    let present ← readUInt8
    if present = 0 then Pure.pure (.string none)
    else do let s ← readUTF8; Pure.pure (.string (some s))
  | 5 => do
    let t ← readUInt8
    let id ← readUInt16BE
    Pure.pure (.content t id)
  | 6 => do
    let n ← readCount
    let vs ← readList readInt32BE n
    Pure.pure (.intarray vs)
  | 7 => do
    let p ← readInt32BE
    Pure.pure (.point (Point2.unpack p).1 (Point2.unpack p).2)
  | 8 => do
    let n ← readCount
    let ps ← readList (do
      let p ← readInt32BE
      Pure.pure (Point2.unpack p)) n
    Pure.pure (.pointarray ps)
  | 10 => do
    let b ← readUInt8
    Pure.pure (.boolean (b ≠ 0))
  | 11 => do let bits ← readUInt64BE; Pure.pure (.double bits)
  | 12 => do
    let p ← readInt32BE
    Pure.pure (.building (Point2.unpack p).1 (Point2.unpack p).2)
  | 14 => do
    let n ← readCount
    let bs ← readList readUInt8 n
    Pure.pure (.bytearray bs)
  | 16 => do
    let n ← readCount
    let bs ← readList (do
      let b ← readUInt8
      Pure.pure (decide (b ≠ 0))) n
    Pure.pure (.booleanarray bs)
  | 17 => do let v ← readInt32BE; Pure.pure (.unit v)
  | t => DecM.throwErr (.unknownConfigTag t)

end TypeIO

/-- Well-formedness of a configuration value: every numeric field fits the
wire width its payload uses.  (The spec's "configuration values drawn from
the live tags" presumes representable values.) -/
def ConfigValid : BlockConfig → Prop
  | .null => True
  | .int v => -2147483648 ≤ v ∧ v < 2147483648
  | .long v => -9223372036854775808 ≤ v ∧ v < 9223372036854775808
  | .float bits => bits < 4294967296
  | .string none => True
  | .string (some s) => s.length < 65536
  | .content t id => t < 256 ∧ id < 65536
  | .intarray vs => vs.length < 2147483648 ∧
      ∀ v ∈ vs, -2147483648 ≤ v ∧ v < 2147483648
  | .point x y => -32768 ≤ x ∧ x < 32768 ∧ -32768 ≤ y ∧ y < 32768
  | .pointarray ps => ps.length < 2147483648 ∧
      ∀ p ∈ ps, -32768 ≤ p.1 ∧ p.1 < 32768 ∧ -32768 ≤ p.2 ∧ p.2 < 32768
  | .boolean _ => True
  | .double bits => bits < 18446744073709551616
  | .building x y => -32768 ≤ x ∧ x < 32768 ∧ -32768 ≤ y ∧ y < 32768
  | .bytearray bs => bs.length < 2147483648 ∧ ∀ b ∈ bs, b < 256
  | .booleanarray bs => bs.length < 2147483648
  | .unit v => -2147483648 ≤ v ∧ v < 2147483648

instance : DecidablePred ConfigValid := fun c => by
  unfold ConfigValid
  cases c with
  | string s => cases s <;> infer_instance
  | _ => infer_instance

namespace TypeIO

theorem readUInt64BE_u64enc (n : Nat) (h : n < 18446744073709551616) (r : Bytes) :
    readUInt64BE (u64enc n ++ r) = .ok n r := by
  have h1 : n / 4294967296 < 4294967296 := by omega
  have h2 : n % 4294967296 < 4294967296 := by omega
  simp only [readUInt64BE, u64enc, List.append_assoc, DecM.bind_run,
    readUInt32BE_u32enc _ h1, readUInt32BE_u32enc _ h2, DecM.pure_run]
  congr 1
  omega

theorem readInt64BE_i64enc (v : Int)
    (h1 : -9223372036854775808 ≤ v) (h2 : v < 9223372036854775808) (r : Bytes) :
    readInt64BE (i64enc v ++ r) = .ok v r := by
  have hlt : (v % 18446744073709551616).toNat < 18446744073709551616 := by omega
  simp only [readInt64BE, i64enc, DecM.bind_run, readUInt64BE_u64enc _ hlt]
  have hcase : v % 18446744073709551616 = v ∨
      v % 18446744073709551616 = v + 18446744073709551616 := by omega
  rcases hcase with hc | hc <;> simp only [DecM.pure_run] <;> congr 1 <;> omega

theorem readCount_enc (n : Nat) (h : n < 2147483648) (r : Bytes) :
    readCount (i32enc (n : Int) ++ r) = .ok n r := by
  simp only [readCount, DecM.bind_run, readInt32BE_i32enc_nat n h, DecM.pure_run,
    Int.toNat_natCast]

/-- The configuration codec round-trip: decoding the encoding of any valid
configuration value yields it back, consuming exactly its bytes. -/
theorem readObject_writeObject (c : BlockConfig) (hc : ConfigValid c) (r : Bytes) :
    readObject (writeObject c ++ r) = .ok c r := by
  cases c with
  | null =>
    simp [readObject, writeObject, readUInt8, u8enc, readByte]
  | int v =>
    obtain ⟨h1, h2⟩ := hc
    simp only [writeObject, List.append_assoc]
    show readObject (u8enc 1 ++ (i32enc v ++ r)) = _
    simp [readObject, readUInt8, u8enc, readByte, readInt32BE_i32enc v h1 h2]
  | long v =>
    obtain ⟨h1, h2⟩ := hc
    simp only [writeObject, List.append_assoc]
    show readObject (u8enc 2 ++ (i64enc v ++ r)) = _
    simp [readObject, readUInt8, u8enc, readByte, readInt64BE_i64enc v h1 h2]
  | float bits =>
    simp only [writeObject, List.append_assoc]
    show readObject (u8enc 3 ++ (u32enc bits ++ r)) = _
    simp [readObject, readUInt8, u8enc, readByte, readUInt32BE_u32enc _ hc]
  | string s =>
    cases s with
    | none =>
      simp [readObject, writeObject, readUInt8, u8enc, readByte]
    | some s =>
      simp only [writeObject, List.append_assoc]
      show readObject (u8enc 4 ++ (u8enc 1 ++ (writeUTF8 s ++ r))) = _
      simp [readObject, readUInt8, u8enc, readByte, readUTF8_writeUTF8 s hc]
  | content t id =>
    obtain ⟨h1, h2⟩ := hc
    simp only [writeObject, List.append_assoc]
    show readObject (u8enc 5 ++ (u8enc t ++ (u16enc id ++ r))) = _
    simp [readObject, readUInt8, u8enc, readByte, Nat.mod_eq_of_lt h1,
      readUInt16BE_u16enc _ h2]
  | intarray vs =>
    obtain ⟨h1, h2⟩ := hc
    simp only [writeObject, List.append_assoc]
    show readObject (u8enc 6 ++ (i32enc vs.length ++ (vs.flatMap i32enc ++ r))) = _
    have hl := readList_flatMap readInt32BE i32enc vs r
      (fun v hv r' => readInt32BE_i32enc v (h2 v hv).1 (h2 v hv).2 r')
    simp [readObject, readUInt8, u8enc, readByte, readCount_enc _ h1, hl]
  | point x y =>
    obtain ⟨h1, h2, h3, h4⟩ := hc
    obtain ⟨hp1, hp2⟩ := Point2.pack_in_i32_range x y
    simp only [writeObject, List.append_assoc]
    show readObject (u8enc 7 ++ (i32enc (Point2.pack x y) ++ r)) = _
    simp [readObject, readUInt8, u8enc, readByte,
      readInt32BE_i32enc _ hp1 hp2, Point2.unpack_pack x y h1 h2 h3 h4]
  | pointarray ps =>
    obtain ⟨h1, h2⟩ := hc
    simp only [writeObject, List.append_assoc]
    show readObject (u8enc 8 ++ (i32enc ps.length ++
      (ps.flatMap (fun p => i32enc (Point2.pack p.1 p.2)) ++ r))) = _
    have hl := readList_flatMap
      (do let p ← readInt32BE; Pure.pure (Point2.unpack p))
      (fun p => i32enc (Point2.pack p.1 p.2)) ps r
      (fun p hp r' => by
        obtain ⟨g1, g2, g3, g4⟩ := h2 p hp
        obtain ⟨gp1, gp2⟩ := Point2.pack_in_i32_range p.1 p.2
        simp [DecM.bind_run, readInt32BE_i32enc _ gp1 gp2,
          Point2.unpack_pack p.1 p.2 g1 g2 g3 g4])
    simp [readObject, readUInt8, u8enc, readByte, readCount_enc _ h1, hl]
  | boolean b =>
    cases b <;> simp [readObject, writeObject, readUInt8, u8enc, readByte]
  | double bits =>
    simp only [writeObject, List.append_assoc]
    show readObject (u8enc 11 ++ (u64enc bits ++ r)) = _
    simp [readObject, readUInt8, u8enc, readByte, readUInt64BE_u64enc _ hc]
  | building x y =>
    obtain ⟨h1, h2, h3, h4⟩ := hc
    obtain ⟨hp1, hp2⟩ := Point2.pack_in_i32_range x y
    simp only [writeObject, List.append_assoc]
    show readObject (u8enc 12 ++ (i32enc (Point2.pack x y) ++ r)) = _
    simp [readObject, readUInt8, u8enc, readByte,
      readInt32BE_i32enc _ hp1 hp2, Point2.unpack_pack x y h1 h2 h3 h4]
  | bytearray bs =>
    obtain ⟨h1, h2⟩ := hc
    simp only [writeObject, List.append_assoc]
    show readObject (u8enc 14 ++ (i32enc bs.length ++ (bs.flatMap u8enc ++ r))) = _
    have hl := readList_flatMap readUInt8 u8enc bs r
      (fun b hb r' => readUInt8_u8enc b (h2 b hb) r')
    simp only [readUInt8] at hl
    simp [readObject, readUInt8, u8enc, readByte, readCount_enc _ h1, hl]
  | booleanarray bs =>
    simp only [writeObject, List.append_assoc]
    show readObject (u8enc 16 ++ (i32enc bs.length ++
      (bs.flatMap (fun b => u8enc (if b then 1 else 0)) ++ r))) = _
    have hl := readList_flatMap
      (do let b ← readUInt8; Pure.pure (decide (b ≠ 0)))
      (fun b => u8enc (if b then 1 else 0)) bs r
      (fun b _ r' => by cases b <;> simp [DecM.bind_run, u8enc, readUInt8, readByte])
    simp only [readUInt8, u8enc, ne_eq, decide_not] at hl
    simp [readObject, readUInt8, u8enc, readByte, readCount_enc _ hc, hl]
  | unit v =>
    obtain ⟨h1, h2⟩ := hc
    simp only [writeObject, List.append_assoc]
    show readObject (u8enc 17 ++ (i32enc v ++ r)) = _
    simp [readObject, readUInt8, u8enc, readByte, readInt32BE_i32enc v h1 h2]

end TypeIO

/-! ## JSON (external service)

`Schematic.read` calls `JSON.parse` on the value of the `"labels"` tag and
assigns the result — whatever JSON value it is — to the `labels` field.  The
JSON parser is an external service ("a JSON parser for the `labels` tag
only", spec §6), modelled here by a small recursive-descent parser. -/

/-- A JSON value (no object support: objects never round-trip through the
claims; an input using one simply fails `jsonParse` and falls back). -/
inductive Json : Type
  | null
  | bool (b : Bool)
  | num (n : Int)
  | str (s : UStr)
  | arr (xs : List Json)

mutual

/-- Decidable equality on JSON values (nested inductive, so written by
hand). -/
def Json.decEq : (a b : Json) → Decidable (a = b)
  | .null, .null => isTrue rfl
  | .null, .bool _ => isFalse (fun h => Json.noConfusion h)
  | .null, .num _ => isFalse (fun h => Json.noConfusion h)
  | .null, .str _ => isFalse (fun h => Json.noConfusion h)
  | .null, .arr _ => isFalse (fun h => Json.noConfusion h)
  | .bool _, .null => isFalse (fun h => Json.noConfusion h)
  | .bool a, .bool b =>
    if h : a = b then isTrue (by rw [h]) else isFalse (fun hh => h (Json.bool.inj hh))
  | .bool _, .num _ => isFalse (fun h => Json.noConfusion h)
  | .bool _, .str _ => isFalse (fun h => Json.noConfusion h)
  | .bool _, .arr _ => isFalse (fun h => Json.noConfusion h)
  | .num _, .null => isFalse (fun h => Json.noConfusion h)
  | .num _, .bool _ => isFalse (fun h => Json.noConfusion h)
  | .num a, .num b =>
    if h : a = b then isTrue (by rw [h]) else isFalse (fun hh => h (Json.num.inj hh))
  | .num _, .str _ => isFalse (fun h => Json.noConfusion h)
  | .num _, .arr _ => isFalse (fun h => Json.noConfusion h)
  | .str _, .null => isFalse (fun h => Json.noConfusion h)
  | .str _, .bool _ => isFalse (fun h => Json.noConfusion h)
  | .str _, .num _ => isFalse (fun h => Json.noConfusion h)
  | .str a, .str b =>
    if h : a = b then isTrue (by rw [h]) else isFalse (fun hh => h (Json.str.inj hh))
  | .str _, .arr _ => isFalse (fun h => Json.noConfusion h)
  | .arr _, .null => isFalse (fun h => Json.noConfusion h)
  | .arr _, .bool _ => isFalse (fun h => Json.noConfusion h)
  | .arr _, .num _ => isFalse (fun h => Json.noConfusion h)
  | .arr _, .str _ => isFalse (fun h => Json.noConfusion h)
  | .arr a, .arr b =>
    match Json.decEqList a b with
    | isTrue h => isTrue (by rw [h])
    | isFalse h => isFalse (fun hh => h (Json.arr.inj hh))

/-- Decidable equality on lists of JSON values. -/
def Json.decEqList : (a b : List Json) → Decidable (a = b)
  | [], [] => isTrue rfl
  | [], _ :: _ => isFalse (fun h => List.noConfusion h)
  | _ :: _, [] => isFalse (fun h => List.noConfusion h)
  | x :: xs, y :: ys =>
    match Json.decEq x y, Json.decEqList xs ys with
    | isTrue h1, isTrue h2 => isTrue (by rw [h1, h2])
    | isFalse h1, _ => isFalse (fun hh => h1 (List.cons.inj hh).1)
    | _, isFalse h2 => isFalse (fun hh => h2 (List.cons.inj hh).2)

end

instance : DecidableEq Json := Json.decEq

/-- JSON whitespace. -/
def isWs (c : Nat) : Bool := c == 32 || c == 9 || c == 10 || c == 13

/-- Skip JSON whitespace. -/
def skipWs (b : Bytes) : Bytes := b.dropWhile isWs

/-- Parse a JSON string body after the opening quote (no escape support). -/
def parseStrBody : Bytes → Option (UStr × Bytes)
  | [] => none
  | c :: r =>
    if c = 34 then some ([], r)
    else match parseStrBody r with
      | some (s, r') => some (c :: s, r')
      | none => none

/-- ASCII digit test. -/
def isDigit (c : Nat) : Bool := 48 ≤ c && c ≤ 57

/-- Value of a digit string. -/
def digitsVal (ds : Bytes) : Nat := ds.foldl (fun a d => a * 10 + (d - 48)) 0

/-- Parse an integer JSON number (optional leading minus, one or more
digits). -/
def parseNum (b : Bytes) : Option (Int × Bytes) :=
  match b with
  | 45 :: r =>
    let ds := r.takeWhile isDigit
    if ds = [] then none else some (-(digitsVal ds : Int), r.dropWhile isDigit)
  | _ =>
    let ds := b.takeWhile isDigit
    if ds = [] then none else some ((digitsVal ds : Int), b.dropWhile isDigit)

mutual

/-- Modelled from the spec: one step of the external JSON parser (fuel-bounded
recursive descent). -/
def parseVal : Nat → Bytes → Option (Json × Bytes)
  | 0, _ => none
  | fuel + 1, b =>
    match skipWs b with
    | 110 :: 117 :: 108 :: 108 :: r => some (.null, r)
    | 116 :: 114 :: 117 :: 101 :: r => some (.bool true, r)
    | 102 :: 97 :: 108 :: 115 :: 101 :: r => some (.bool false, r)
    | 34 :: r =>
      match parseStrBody r with
      | some (s, r') => some (.str s, r')
      | none => none
    | 91 :: r =>
      match skipWs r with
      | 93 :: r' => some (.arr [], r')
      | r' =>
        match parseItems fuel r' with
        | some (xs, r'') => some (.arr xs, r'')
        | none => none
    | b' =>
      match parseNum b' with
      | some (n, r) => some (.num n, r)
      | none => none

/-- Parse the comma-separated items of a JSON array, up to the closing
bracket. -/
def parseItems : Nat → Bytes → Option (List Json × Bytes)
  | 0, _ => none
  | fuel + 1, b =>
    match parseVal fuel b with
    | some (v, r) =>
      (match skipWs r with
       | 44 :: r' =>
         match parseItems fuel r' with
         | some (xs, r'') => some (v :: xs, r'')
         | none => none
       | 93 :: r' => some ([v], r')
       | _ => none)
    | none => none

end

/-- Modelled from the spec: the external `JSON.parse`, returning `none` on a
parse failure (which the caller turns into the thrown-and-caught fallback). -/
def jsonParse (s : UStr) : Option Json :=
  match parseVal (s.length + 1) s with
  | some (v, r) => if skipWs r = [] then some v else none
  | none => none

/-- Is this JSON value an array of strings? -/
def Json.isStringArr : Json → Bool
  | .arr xs => xs.all fun j => match j with | .str _ => true | _ => false
  | _ => false

/-- The bytes of the string `"labels"`. -/
def labelsKey : UStr := [108, 97, 98, 101, 108, 115]

/-- JavaScript property lookup `tags["labels"]` on the model's tag list. -/
def tagLookup (tags : List (UStr × UStr)) (k : UStr) : Option UStr :=
  (tags.find? fun kv => kv.1 == k).map (·.2)

/-- The `labels` computation of `Schematic.read` (lines 64–69): parse the
`"labels"` tag as JSON; on absence (`JSON.parse(undefined)` throws) or parse
failure, fall back to the empty list.  The parse result is assigned to
`labels` unchecked. -/
def deriveLabels (tags : List (UStr × UStr)) : Json :=
  match tagLookup tags labelsKey with
  | none => .arr []
  | some v => (jsonParse v).getD (.arr [])

/-! ## Tile -/

/-- Modelled from the spec (§3 Tile, §4.4): `Tile.ts` is not under `src/`.  A
tile holds its block type name, grid position, rotation and configuration
value.  The two-phase raw-config materialization (`readConfig` /
`writeConfig`) is modelled eagerly — the configuration is always held in
decoded form — per the spec's §9 note that eager decoding is an acceptable
simplification; the link list is part of the configuration payload. -/
structure Tile where
  name : UStr
  x : Int
  y : Int
  config : BlockConfig
  rotation : Int
deriving DecidableEq

/-! ## zlib (external service) -/

/-- Modelled from the spec (§6): the external deflate primitive ("a
deflate/inflate primitive — any conformant implementation").  Modelled as a
header-tagged identity codec with the two properties the container codec
relies on: `inflate (deflate b) = some b`, and byte sequences that are not
produced by `deflate` are rejected. -/
def deflate (b : Bytes) : Bytes := 120 :: 156 :: b

/-- Modelled from the spec (§6): the external inflate primitive; `none` models
the exception `zlib.inflateSync` throws on corrupt data. -/
def inflate (b : Bytes) : Option Bytes :=
  match b with
  | 120 :: 156 :: r => some r
  | _ => none

theorem inflate_deflate (b : Bytes) : inflate (deflate b) = some b := rfl

/-! ## Schematic container codec (`src/src/Schematic.ts`) -/

/-- A grid of optional tiles, indexed `[row][col]` with row = y, col = x. -/
abbrev Grid := List (List (Option Tile))

/-- The blank grid `Array.from({length: height}, () => Array(width).fill(null))`. -/
def blankGrid (w h : Nat) : Grid := List.replicate h (List.replicate w none)

/-- Grid cell write `g[y][x] = v` (in-range `y`, `x`). -/
def set2d (g : Grid) (y x : Nat) (v : Option Tile) : Grid :=
  g.set y ((g.getD y []).set x v)

/-- Grid cell read `g[y][x]` (empty outside the grid). -/
def get2d (g : Grid) (y x : Nat) : Option Tile := (g.getD y []).getD x none

/-- Result of an operation that either produces a value, returns a descriptive
error, or throws. -/
inductive RRes (α : Type) : Type
  | ok (a : α)
  | err (e : DecErr)
  | fatal (f : Fault)
deriving DecidableEq

namespace Schematic

/-- `Schematic.headerBytes`: the ASCII bytes of `"msch"`. -/
def headerBytes : Bytes := [109, 115, 99, 104]

/-- The loop body of `Schematic.sortTiles` (lines 175–183): place each tile of
the list at `[tile.y][tile.x]`, failing (a thrown `fail(...)`) on an
out-of-bounds position.  The element type is `Option Tile` because
`Schematic.read` passes a sparse array whose holes read as `undefined`;
iterating onto a hole throws a `TypeError` (`tile.x` on `undefined`). -/
def sortTilesGo (w h : Nat) : Grid → List (Option Tile) → Except Fault Grid
  | acc, [] => .ok acc
  | _, none :: _ => .error .typeError
  | acc, some t :: rest =>
    if 0 ≤ t.x ∧ t.x < w ∧ 0 ≤ t.y ∧ t.y < h then
      sortTilesGo w h (set2d acc t.y.toNat t.x.toNat (some t)) rest
    else .error (.sortFail t.x t.y w h)

/-- `Schematic.sortTiles`: sort a list of tiles into a `height × width`
grid. -/
def sortTiles (tiles : List (Option Tile)) (w h : Nat) : Except Fault Grid :=
  sortTilesGo w h (blankGrid w h) tiles

end Schematic

/-- The Schematic data model (`src/src/Schematic.ts` fields).  `labels` has
JSON type because `Schematic.read` assigns the raw `JSON.parse` result to it
(the TypeScript `string[]` annotation is not enforced at runtime); direct
construction passes an array of strings. -/
structure Schematic where
  height : Nat
  width : Nat
  version : Int
  tags : List (UStr × UStr)
  labels : Json
  tiles : Grid
deriving DecidableEq

namespace Schematic

/-- The `Schematic` constructor (lines 25–36): sorts the given tiles into the
grid via `sortTiles` (the `fail` therein is a thrown exception, hence
`Except`).  `readConfigs` is the identity in this model (configurations are
held in decoded form). -/
def create (height width : Nat) (version : Int) (tags : List (UStr × UStr))
    (labels : Json) (tiles : List Tile) : Except Fault Schematic :=
  (sortTiles (tiles.map some) width height).map fun g =>
    ⟨height, width, version, tags, labels, g⟩

/-- `Schematic.unsortTiles` (lines 189–191): `tiles.flat().filter(Boolean)` —
the grid flattened row-major (y ascending, then x ascending) with empty cells
dropped. -/
def unsortTiles (g : Grid) : List Tile := g.flatten.filterMap id

/-- `Schematic.getBlockMap` (lines 156–166): assign each distinct block name
the next unused small integer id in first-appearance order (the `Map`
preserves insertion order), and pair every tile with its name's id. -/
def getBlockMap (ts : List Tile) : List UStr × List (Tile × Nat) :=
  ts.foldl (fun acc t =>
    match acc.1.findIdx? (fun n => n == t.name) with
    | some i => (acc.1, acc.2 ++ [(t, i)])
    | none => (acc.1 ++ [t.name], acc.2 ++ [(t, acc.1.length)])) ([], [])

/-- `Schematic.write` (lines 115–152): header bytes, version byte, then the
deflate-compressed payload holding width, height, the tag pairs, the interned
block-name table, and the tile records. -/
def write (s : Schematic) : Bytes :=
  let bm := getBlockMap (unsortTiles s.tiles)
  let payload : Bytes :=
    u16enc s.width ++ u16enc s.height
    ++ u8enc s.tags.length
    ++ s.tags.flatMap (fun kv => writeUTF8 kv.1 ++ writeUTF8 kv.2)
    ++ u8enc bm.1.length ++ bm.1.flatMap writeUTF8
    ++ i32enc (bm.2.length : Int)
    ++ bm.2.flatMap (fun m =>
        u8enc m.2 ++ i32enc (Point2.pack m.1.x m.1.y)
        ++ TypeIO.writeObject m.1.config ++ u8enc m.1.rotation.toNat)
  headerBytes ++ u8enc s.version.toNat ++ deflate payload

/-- JavaScript object insert `tags[k] = v`: overwrite in place if the key
exists, else append. -/
def jsUpsert (m : List (UStr × UStr)) (k v : UStr) : List (UStr × UStr) :=
  if m.any (fun kv => kv.1 == k) then
    m.map fun kv => if kv.1 == k then (kv.1, v) else kv
  else m ++ [(k, v)]

/-- The tag-reading loop of `Schematic.read` (lines 59–63). -/
def readTags (n : Nat) : DecM (List (UStr × UStr)) := do
  let pairs ← readList (do
    let k ← readUTF8
    let v ← readUTF8
    Pure.pure (k, v)) n
  Pure.pure (pairs.foldl (fun m kv => jsUpsert m kv.1 kv.2) [])

/-- The ASCII bytes of `"air"`. -/
def airName : UStr := [97, 105, 114]

/-- One iteration of the tile-reading loop of `Schematic.read` (lines 79–90):
read the block index (signed byte), packed position, configuration and
rotation; validate rotation, then position; skip the record (leaving the slot
empty) when the name is missing, empty, or `"air"`. -/
def readTile (blocks : List UStr) (w h : Nat) : DecM (Option Tile) := do
  let id ← readInt8
  let block : Option UStr := if 0 ≤ id then blocks[id.toNat]? else none
  let pos ← readInt32BE
  let config ← TypeIO.readObject
  let rotation ← readInt8
  if rotation = 0 ∨ rotation = 1 ∨ rotation = 2 ∨ rotation = 3 then
    if (Point2.unpack pos).1 < (w : Int) ∧ (Point2.unpack pos).2 < (h : Int) then
      match block with
      | none => Pure.pure none
      | some name =>
        if name = [] ∨ name = airName then Pure.pure none
        else Pure.pure (some ⟨name, (Point2.unpack pos).1, (Point2.unpack pos).2,
          config, rotation⟩)
    else DecM.throwErr (.outOfBounds (Point2.unpack pos).1 (Point2.unpack pos).2)
  else DecM.throwErr (.invalidRotation rotation)

/-- The decompressed-payload parse of `Schematic.read` (lines 55–90): width,
height and size check; tags and labels; block-name table; tile count with its
`RangeError` (`new Array(numTiles)` on a negative count) and `TooManyTiles`
checks; then the tile records. -/
def readPayload : DecM (Nat × Nat × List (UStr × UStr) × Json × List (Option Tile)) := do
  let width ← readUInt16BE
  let height ← readUInt16BE
  if width > 128 ∨ height > 128 then DecM.throwErr .tooLarge
  else do
    let tagcount ← readUInt8
    let tags ← readTags tagcount
    let labels := deriveLabels tags
    let nblocks ← readUInt8
    let blocks ← readList readUTF8 nblocks
    let numTiles ← readInt32BE
    if numTiles < 0 then DecM.throwFatal .rangeError
    else if numTiles > ((width * height : Nat) : Int) then
      DecM.throwErr (.tooManyTiles (width * height) numTiles)
    else do
      let optTiles ← readList (readTile blocks width height) numTiles.toNat
      Pure.pure (width, height, tags, labels, optTiles)

/-- The magic-byte check loop of `Schematic.read` (lines 47–49). -/
def checkMagic : Bytes → DecM Unit
  | [] => Pure.pure ()
  | c :: cs => do
    let b ← readUInt8
    if b ≠ c then DecM.throwErr .badMagic else checkMagic cs

/-- The tail of `Schematic.read` after the header: parse the decompressed
payload, then build the schematic through the constructor (`sortTiles`). -/
def readBody (v : Int) (data : Bytes) : RRes Schematic :=
  match readPayload data with
  | .err e => .err e
  | .fatal f => .fatal f
  | .ok (width, height, tags, labels, optTiles) _ =>
    match sortTiles optTiles width height with
    | .error f => .fatal f
    | .ok g => .ok ⟨height, width, v, tags, labels, g⟩

/-- The header stage of `Schematic.read` (lines 47–51): magic bytes, then the
version byte, accepting only version 1. -/
def readHeader : DecM Int := do
  checkMagic headerBytes
  let v ← readInt8
  if v ≠ 1 then DecM.throwErr (.badVersion v) else Pure.pure v

/-- `Schematic.read` (lines 43–92): check the magic bytes and version, inflate
the rest (the `inflateSync` failure is an uncaught throw), parse the payload,
and build the schematic through the constructor (`sortTiles`). -/
def read (input : Bytes) : RRes Schematic :=
  match readHeader input with
  | .err e => .err e
  | .fatal f => .fatal f
  | .ok v _ =>
    match inflate (input.drop 5) with
    | none => .fatal .zlibError
    | some data => readBody v data

/-- `Schematic.getTileAt` (lines 222–224): `this.tiles[y][x]`.  When `y` is
outside the row range, `this.tiles[y]` is `undefined` and the `[x]` access
throws a `TypeError`; an out-of-range `x` just yields `undefined` (empty). -/
def getTileAt (s : Schematic) (x y : Int) : RRes (Option Tile) :=
  match (if 0 ≤ y then s.tiles[y.toNat]? else none) with
  | none => .fatal .typeError
  | some row => .ok (if 0 ≤ x then (row[x.toNat]?).getD none else none)

/-- JavaScript array-element assignment `row[x] = v`: in range it overwrites;
past the end it extends the row with holes (read back as empty). -/
def jsRowSet (row : List (Option Tile)) (x : Nat) (v : Option Tile) :
    List (Option Tile) :=
  if x < row.length then row.set x v
  else row ++ List.replicate (x - row.length) none ++ [v]

/-- `Schematic.setTileAt` (lines 231–235): overwrite the tile's stored
coordinates with `(x, y)`, then `this.tiles[y][x] = tile`.  When `y` is
outside the row range the assignment throws a `TypeError`; a negative `x`
creates a non-index property, modelled as leaving the grid cells unchanged. -/
def setTileAt (s : Schematic) (x y : Int) (tile : Tile) : RRes Schematic :=
  let t : Tile := { tile with x := x, y := y }
  match (if 0 ≤ y then s.tiles[y.toNat]? else none) with
  | none => .fatal .typeError
  | some row =>
    .ok { s with tiles :=
      if 0 ≤ x then s.tiles.set y.toNat (jsRowSet row x.toNat (some t))
      else s.tiles }

end Schematic

/-! ## Machinery: stream lemmas -/

/-- Generalized list round-trip: a reader inverting an encoder up to a
per-element transformation `f`. -/
theorem readList_flatMap_map (m : DecM β) (enc : α → Bytes) (f : α → β)
    (l : List α) (r : Bytes)
    (H : ∀ a ∈ l, ∀ r', m (enc a ++ r') = .ok (f a) r') :
    readList m l.length (l.flatMap enc ++ r) = .ok (l.map f) r := by
  induction l with
  | nil => simp [readList]
  | cons a l ih =>
    have ha := H a (by simp)
    simp only [List.flatMap_cons, List.length_cons, readList, List.append_assoc,
      DecM.bind_run, ha]
    rw [ih (fun a ha' r' => H a (by simp [ha']) r')]
    rfl

/-- If the first `chunks.length` records parse fine and the next record
produces a returned error, the whole element loop returns that error (the
loop aborts at the first failing record). -/
theorem readList_err_after (m : DecM β) (chunks : List Bytes) (bad rest : Bytes)
    (e : DecErr) (n : Nat)
    (Hg : ∀ c ∈ chunks, ∃ a, ∀ r', m (c ++ r') = .ok a r')
    (Hb : ∀ r', m (bad ++ r') = .err e)
    (hn : chunks.length < n) :
    readList m n (chunks.flatten ++ (bad ++ rest)) = .err e := by
  induction chunks generalizing n with
  | nil =>
    obtain ⟨k, rfl⟩ : ∃ k, n = k + 1 := ⟨n - 1, by omega⟩
    simp only [List.flatten_nil, List.nil_append, readList, DecM.bind_run, Hb]
  | cons c cs ih =>
    obtain ⟨k, rfl⟩ : ∃ k, n = k + 1 := ⟨n - 1, by omega⟩
    obtain ⟨a, ha⟩ := Hg c (by simp)
    simp only [List.flatten_cons, List.append_assoc, readList, DecM.bind_run, ha]
    rw [ih k (fun c' hc' => Hg c' (by simp [hc'])) (by simpa using hn)]

/-! ## Machinery: name interning -/

/-- First-appearance deduplication starting from an already-collected list:
the order in which a `Map` keyed by name collects its keys. -/
def internFrom (acc : List UStr) (l : List UStr) : List UStr :=
  l.foldl (fun acc n => if n ∈ acc then acc else acc ++ [n]) acc

/-- First-appearance deduplication of a name list. -/
def internNames (l : List UStr) : List UStr := internFrom [] l

theorem internFrom_mem (l : List UStr) (acc : List UStr) (x : UStr) :
    x ∈ internFrom acc l ↔ x ∈ acc ∨ x ∈ l := by
  induction l generalizing acc with
  | nil => simp [internFrom]
  | cons n l ih =>
    show x ∈ internFrom (if n ∈ acc then acc else acc ++ [n]) l ↔ _
    rw [ih]
    by_cases h : n ∈ acc
    · simp only [if_pos h, List.mem_cons]
      constructor
      · tauto
      · rintro (h' | h' | h')
        · tauto
        · subst h'; tauto
        · tauto
    · simp only [if_neg h, List.mem_append, List.mem_singleton, List.mem_cons]
      tauto

theorem internFrom_nodup (l : List UStr) (acc : List UStr) (h : acc.Nodup) :
    (internFrom acc l).Nodup := by
  induction l generalizing acc with
  | nil => exact h
  | cons n l ih =>
    show (internFrom (if n ∈ acc then acc else acc ++ [n]) l).Nodup
    split <;> rename_i hn
    · exact ih acc h
    · exact ih _ (by simp [List.nodup_append, h, hn])

theorem internNames_mem (l : List UStr) (x : UStr) :
    x ∈ internNames l ↔ x ∈ l := by
  simp [internNames, internFrom_mem]

theorem internNames_nodup (l : List UStr) : (internNames l).Nodup :=
  internFrom_nodup l [] List.nodup_nil

theorem internNames_length_eq_card (l : List UStr) :
    (internNames l).length = l.toFinset.card := by
  have h1 : (internNames l).toFinset = l.toFinset := by
    ext x; simp [List.mem_toFinset, internNames_mem]
  rw [← h1, List.toFinset_card_of_nodup (internNames_nodup l)]

/-- A set-wise sublist has at most as many distinct names. -/
theorem internNames_length_le (l1 l2 : List UStr) (h : ∀ x ∈ l1, x ∈ l2) :
    (internNames l1).length ≤ (internNames l2).length := by
  rw [internNames_length_eq_card, internNames_length_eq_card]
  exact Finset.card_le_card (fun x hx => by
    simp only [List.mem_toFinset] at hx ⊢; exact h x hx)

/-! ## Machinery: tag map -/

namespace Schematic

/-- Folding JavaScript property assignment over fresh keys just appends. -/
theorem foldl_jsUpsert_nodup (pairs : List (UStr × UStr))
    (acc : List (UStr × UStr))
    (hnd : ((acc ++ pairs).map Prod.fst).Nodup) :
    pairs.foldl (fun m kv => jsUpsert m kv.1 kv.2) acc = acc ++ pairs := by
  induction pairs generalizing acc with
  | nil => simp
  | cons kv pairs ih =>
    have hk : ∀ p ∈ acc, (p.1 == kv.1) = false := by
      intro p hp
      rw [List.map_append, List.nodup_append] at hnd
      by_contra hbeq
      rw [Bool.not_eq_false, beq_iff_eq] at hbeq
      exact hnd.2.2 (List.mem_map_of_mem Prod.fst hp) (by simp [hbeq])
    have hup : jsUpsert acc kv.1 kv.2 = acc ++ [kv] := by
      unfold jsUpsert
      rw [if_neg]
      rw [List.any_eq_true]
      rintro ⟨p, hp, hbeq⟩
      simp [hk p hp] at hbeq
    simp only [List.foldl_cons, hup]
    rw [ih (acc ++ [kv]) (by simpa using hnd)]
    simp

/-- Reading back tags written from a duplicate-free tag record reproduces
it. -/
theorem foldl_jsUpsert_id (pairs : List (UStr × UStr))
    (hnd : (pairs.map Prod.fst).Nodup) :
    pairs.foldl (fun m kv => jsUpsert m kv.1 kv.2) [] = pairs := by
  simpa using foldl_jsUpsert_nodup pairs [] (by simpa using hnd)

/-! ## Machinery: block map -/

/-- The fold step of `getBlockMap`. -/
def blockMapStep (acc : List UStr × List (Tile × Nat)) (t : Tile) :
    List UStr × List (Tile × Nat) :=
  match acc.1.findIdx? (fun n => n == t.name) with
  | some i => (acc.1, acc.2 ++ [(t, i)])
  | none => (acc.1 ++ [t.name], acc.2 ++ [(t, acc.1.length)])

theorem getBlockMap_eq_foldl (ts : List Tile) :
    getBlockMap ts = ts.foldl blockMapStep ([], []) := rfl

/-- The mapping component pairs up exactly the input tiles, in order. -/
theorem blockMap_fst (ts : List Tile) (acc : List UStr × List (Tile × Nat)) :
    (ts.foldl blockMapStep acc).2.map Prod.fst = acc.2.map Prod.fst ++ ts := by
  induction ts generalizing acc with
  | nil => simp
  | cons t ts ih =>
    simp only [List.foldl_cons]
    rw [ih]
    unfold blockMapStep
    cases h : acc.1.findIdx? (fun n => n == t.name) <;> simp

theorem getBlockMap_tiles (ts : List Tile) :
    (getBlockMap ts).2.map Prod.fst = ts := by
  rw [getBlockMap_eq_foldl, blockMap_fst]; rfl

/-- The name table is the first-appearance deduplication of the tiles' names
in iteration order. -/
theorem blockMap_names (ts : List Tile) (acc : List UStr × List (Tile × Nat)) :
    (ts.foldl blockMapStep acc).1 = internFrom acc.1 (ts.map Tile.name) := by
  induction ts generalizing acc with
  | nil => simp [internFrom]
  | cons t ts ih =>
    simp only [List.foldl_cons, List.map_cons]
    rw [ih]
    show _ = internFrom (if t.name ∈ acc.1 then acc.1 else acc.1 ++ [t.name]) _
    unfold blockMapStep
    cases h : acc.1.findIdx? (fun n => n == t.name) with
    | none =>
      rw [List.findIdx?_eq_none_iff] at h
      have : t.name ∉ acc.1 := fun hmem => by simpa using h t.name hmem
      simp [this]
    | some i =>
      rw [List.findIdx?_eq_some_iff_findIdx_eq] at h
      obtain ⟨hlt, hidx⟩ := h
      subst hidx
      have hget := @List.findIdx_getElem _ (fun n => n == t.name) acc.1 hlt
      rw [beq_iff_eq] at hget
      have hmem : t.name ∈ acc.1 := hget ▸ List.getElem_mem _
      simp [hmem]

theorem getBlockMap_names (ts : List Tile) :
    (getBlockMap ts).1 = internNames (ts.map Tile.name) := by
  rw [getBlockMap_eq_foldl, blockMap_names]; rfl

/-- Every mapping entry's id points at its tile's name in the name table. -/
theorem blockMap_ids (ts : List Tile) (acc : List UStr × List (Tile × Nat))
    (hacc : ∀ p ∈ acc.2, acc.1[p.2]? = some p.1.name ∧ p.2 < acc.1.length) :
    ∀ p ∈ (ts.foldl blockMapStep acc).2,
      (ts.foldl blockMapStep acc).1[p.2]? = some p.1.name ∧
      p.2 < (ts.foldl blockMapStep acc).1.length := by
  induction ts generalizing acc with
  | nil => exact hacc
  | cons t ts ih =>
    simp only [List.foldl_cons]
    apply ih
    unfold blockMapStep
    cases h : acc.1.findIdx? (fun n => n == t.name) with
    | none =>
      intro p hp
      simp only [List.mem_append, List.mem_singleton] at hp
      rcases hp with hp | hp
      · obtain ⟨h1, h2⟩ := hacc p hp
        refine ⟨?_, by simp; omega⟩
        rw [List.getElem?_append_left h2]; exact h1
      · subst hp
        refine ⟨?_, by simp⟩
        rw [List.getElem?_append_right (le_refl _)]
        simp
    | some i =>
      rw [List.findIdx?_eq_some_iff_findIdx_eq] at h
      obtain ⟨hlt, hidx⟩ := h
      subst hidx
      intro p hp
      simp only [List.mem_append, List.mem_singleton] at hp
      rcases hp with hp | hp
      · exact hacc p hp
      · subst hp
        have hget := @List.findIdx_getElem _ (fun n => n == t.name) acc.1 hlt
        rw [beq_iff_eq] at hget
        refine ⟨?_, hlt⟩
        rw [List.getElem?_eq_some]
        exact ⟨hlt, hget⟩

theorem getBlockMap_ids (ts : List Tile) :
    ∀ p ∈ (getBlockMap ts).2,
      (getBlockMap ts).1[p.2]? = some p.1.name ∧ p.2 < (getBlockMap ts).1.length := by
  rw [getBlockMap_eq_foldl]
  exact blockMap_ids ts ([], []) (by simp)

end Schematic

/-! ## Machinery: grids -/

/-- A grid with `h` rows, each of width `w`. -/
def GridWF (g : Grid) (w h : Nat) : Prop :=
  g.length = h ∧ ∀ row ∈ g, row.length = w

/-- The data-model invariant (spec §3): every stored tile's coordinates equal
its grid position and lie within the bounds. -/
def GridInv (g : Grid) (w h : Nat) : Prop :=
  ∀ y x t, get2d g y x = some t →
    t.x = (x : Int) ∧ t.y = (y : Int) ∧ x < w ∧ y < h

/-- A tile whose position is within a `w × h` grid. -/
def InB (t : Tile) (w h : Nat) : Prop :=
  0 ≤ t.x ∧ t.x < (w : Int) ∧ 0 ≤ t.y ∧ t.y < (h : Int)

theorem blankGrid_wf (w h : Nat) : GridWF (blankGrid w h) w h := by
  constructor
  · simp [blankGrid]
  · intro row hrow
    simp only [blankGrid] at hrow
    rw [List.eq_of_mem_replicate hrow]
    simp

theorem get2d_blankGrid (w h y x : Nat) : get2d (blankGrid w h) y x = none := by
  simp only [get2d, blankGrid]
  rcases Nat.lt_or_ge y h with hy | hy
  · simp only [List.getD_eq_getElem?_getD, List.getElem?_replicate, if_pos hy,
      Option.getD_some]
    split <;> simp
  · simp only [List.getD_eq_getElem?_getD, List.getElem?_replicate,
      if_neg (Nat.not_lt.mpr hy), Option.getD_none]
    simp

theorem get2d_oob (g : Grid) (w h y x : Nat) (hwf : GridWF g w h)
    (hoob : h ≤ y ∨ w ≤ x) : get2d g y x = none := by
  obtain ⟨hlen, hrows⟩ := hwf
  simp only [get2d, List.getD_eq_getElem?_getD]
  rcases hoob with hy | hx
  · rw [show g[y]? = none from List.getElem?_eq_none (by omega)]
    simp
  · rcases Nat.lt_or_ge y g.length with hy | hy
    · rw [show g[y]? = some g[y] from List.getElem?_eq_getElem hy]
      have hrl : g[y].length = w := hrows _ (List.getElem_mem hy)
      simp only [Option.getD_some]
      rw [show g[y][x]? = none from List.getElem?_eq_none (by omega)]
      simp
    · rw [show g[y]? = none from List.getElem?_eq_none (by omega)]
      simp

theorem set2d_wf (g : Grid) (w h y x : Nat) (v : Option Tile)
    (hwf : GridWF g w h) : GridWF (set2d g y x v) w h := by
  obtain ⟨hlen, hrows⟩ := hwf
  refine ⟨by simp [set2d, hlen], ?_⟩
  intro row hrow
  rcases Nat.lt_or_ge y g.length with hy | hy
  · rw [set2d] at hrow
    rcases List.mem_or_eq_of_mem_set hrow with hmem | heq
    · exact hrows row hmem
    · rw [heq, List.length_set, List.getD_eq_getElem?_getD,
        List.getElem?_eq_getElem hy]
      exact hrows _ (List.getElem_mem hy)
  · rw [set2d, List.set_eq_of_length_le (by omega)] at hrow
    exact hrows row hrow

/-- Cell contents after a grid write at an in-range position. -/
theorem get2d_set2d (g : Grid) (w h yc xc : Nat) (v : Option Tile)
    (hwf : GridWF g w h) (hy : yc < h) (hx : xc < w) (y x : Nat) :
    get2d (set2d g yc xc v) y x =
      if yc = y ∧ xc = x then v else get2d g y x := by
  obtain ⟨hlen, hrows⟩ := hwf
  have hyg : yc < g.length := by omega
  have hrw : (g[yc]?.getD []).length = w := by
    rw [show g[yc]? = some g[yc] from List.getElem?_eq_getElem hyg]
    exact hrows _ (List.getElem_mem hyg)
  simp only [get2d, set2d, List.getD_eq_getElem?_getD, List.getElem?_set]
  split_ifs <;> first
    | rfl
    | omega
    | tauto
    | simp_all

/-- The loop body's grid assignment `sortedTiles[tile.y][tile.x] = tile`. -/
def place (g : Grid) (t : Tile) : Grid := set2d g t.y.toNat t.x.toNat (some t)

theorem place_wf (g : Grid) (w h : Nat) (t : Tile) (hwf : GridWF g w h) :
    GridWF (place g t) w h := set2d_wf g w h _ _ _ hwf

/-- With every tile in bounds, the sorting loop never fails and is a plain
fold of placements. -/
theorem sortTilesGo_map_some (w h : Nat) (ts : List Tile) (acc : Grid)
    (hts : ∀ t ∈ ts, InB t w h) :
    Schematic.sortTilesGo w h acc (ts.map some) = .ok (ts.foldl place acc) := by
  induction ts generalizing acc with
  | nil => rfl
  | cons t ts ih =>
    obtain ⟨h1, h2, h3, h4⟩ := hts t (by simp)
    simp only [List.map_cons, Schematic.sortTilesGo, List.foldl_cons]
    rw [if_pos ⟨h1, h2, h3, h4⟩]
    exact ih _ (fun t' ht' => hts t' (by simp [ht']))

/-- Propagation of a per-cell property through the sorting loop: cells keep a
property they had in the accumulator unless overwritten with a placed tile,
which carry it by `hplace`. -/
theorem sortTilesGo_cells (w h : Nat) (l : List (Option Tile)) (acc g : Grid)
    (P : Nat → Nat → Option Tile → Prop)
    (hok : Schematic.sortTilesGo w h acc l = .ok g)
    (hwf : GridWF acc w h)
    (hacc : ∀ y x, y < h → x < w → P y x (get2d acc y x))
    (hplace : ∀ t, some t ∈ l → InB t w h → P t.y.toNat t.x.toNat (some t)) :
    GridWF g w h ∧ ∀ y x, y < h → x < w → P y x (get2d g y x) := by
  induction l generalizing acc with
  | nil =>
    simp only [Schematic.sortTilesGo] at hok
    cases hok
    exact ⟨hwf, hacc⟩
  | cons o l ih =>
    cases o with
    | none => simp [Schematic.sortTilesGo] at hok
    | some t =>
      simp only [Schematic.sortTilesGo] at hok
      by_cases hin : 0 ≤ t.x ∧ t.x < (w : Int) ∧ 0 ≤ t.y ∧ t.y < (h : Int)
      · rw [if_pos hin] at hok
        have hyn : t.y.toNat < h := by omega
        have hxn : t.x.toNat < w := by omega
        refine ih _ hok (set2d_wf acc w h _ _ _ hwf) ?_
          (fun t' ht' hInB' => hplace t' (by simp [ht']) hInB')
        intro y x hy hx
        rw [get2d_set2d acc w h t.y.toNat t.x.toNat (some t) hwf hyn hxn y x]
        split
        · rename_i heq
          obtain ⟨hy', hx'⟩ := heq
          subst hy'
          subst hx'
          exact hplace t (by simp) hin
        · exact hacc y x hy hx
      · rw [if_neg hin] at hok
        cases hok

/-- Grid membership of the flattened, filtered tile list. -/
theorem mem_unsortTiles (g : Grid) (w h : Nat) (hwf : GridWF g w h) (t : Tile) :
    t ∈ Schematic.unsortTiles g ↔
      ∃ y x, y < h ∧ x < w ∧ get2d g y x = some t := by
  obtain ⟨hlen, hrows⟩ := hwf
  simp only [Schematic.unsortTiles]
  rw [List.mem_filterMap]
  constructor
  · rintro ⟨a, ha, hid⟩
    have ha' : some t ∈ g.flatten := by
      simp only [id] at hid
      exact hid ▸ ha
    rw [List.mem_flatten] at ha'
    obtain ⟨row, hrow, hmem⟩ := ha'
    rw [List.mem_iff_getElem?] at hrow
    obtain ⟨y, hy⟩ := hrow
    rw [List.mem_iff_getElem?] at hmem
    obtain ⟨x, hx⟩ := hmem
    obtain ⟨hylt, hrowy⟩ := List.getElem?_eq_some.mp hy
    obtain ⟨hxlt, _⟩ := List.getElem?_eq_some.mp hx
    have hrl : row.length = w := by
      rw [← hrowy]; exact hrows _ (List.getElem_mem hylt)
    refine ⟨y, x, by omega, by omega, ?_⟩
    simp only [get2d, List.getD_eq_getElem?_getD, hy, Option.getD_some, hrowy, hx]
  · rintro ⟨y, x, hy, hx, hcell⟩
    refine ⟨some t, ?_, rfl⟩
    rw [List.mem_flatten]
    have hylt : y < g.length := by omega
    refine ⟨g[y], List.getElem_mem hylt, ?_⟩
    simp only [get2d, List.getD_eq_getElem?_getD,
      List.getElem?_eq_getElem hylt, Option.getD_some] at hcell
    cases hcx : g[y][x]? with
    | none => rw [hcx] at hcell; simp at hcell
    | some c =>
      rw [hcx] at hcell
      simp only [Option.getD_some] at hcell
      subst hcell
      rw [List.mem_iff_getElem?]
      exact ⟨x, hcx⟩

/-- The non-empty cells number at most `w * h`. -/
theorem unsortTiles_length_le (g : Grid) (w h : Nat) (hwf : GridWF g w h) :
    (Schematic.unsortTiles g).length ≤ w * h := by
  obtain ⟨hlen, hrows⟩ := hwf
  have h1 : (Schematic.unsortTiles g).length ≤ g.flatten.length :=
    List.length_filterMap_le _ _
  have h2 : g.flatten.length = h * w := by
    rw [List.length_flatten]
    have : g.map List.length = List.replicate h w := by
      rw [List.eq_replicate_iff]
      constructor
      · simp [hlen]
      · intro b hb
        rw [List.mem_map] at hb
        obtain ⟨row, hrow, hrowl⟩ := hb
        rw [← hrowl]
        exact hrows row hrow
    rw [this, List.sum_replicate, smul_eq_mul]
  rw [Nat.mul_comm h w] at h2
  omega

/-- The last tile of the list whose stored coordinates are `(x, y)` — the one
that "wins" the cell under last-write-wins placement. -/
def placedAt (l : List Tile) (y x : Nat) : Option Tile :=
  (l.filter fun t => t.x == (x : Int) && t.y == (y : Int)).getLast?

theorem getLast?_all_eq {α : Type} (l : List α) (t : α) (hne : l ≠ [])
    (hall : ∀ a ∈ l, a = t) : l.getLast? = some t := by
  induction l with
  | nil => cases hne rfl
  | cons a l ih =>
    rw [List.getLast?_cons]
    cases l with
    | nil => simp [hall a (by simp)]
    | cons b l' =>
      rw [ih (by simp) (fun u hu => hall u (by simp [hu]))]
      simp

/-- Cells after folding placements: the last matching tile wins; untouched
cells keep the accumulator's contents. -/
theorem foldl_place_get (w h : Nat) (l : List Tile) (acc : Grid)
    (hwf : GridWF acc w h) (hl : ∀ t ∈ l, InB t w h) (y x : Nat)
    (hy : y < h) (hx : x < w) :
    get2d (l.foldl place acc) y x =
      ((placedAt l y x).map some).getD (get2d acc y x) := by
  induction l generalizing acc with
  | nil => simp [placedAt]
  | cons t l ih =>
    have hInB := hl t (by simp)
    obtain ⟨hx0, hxw, hy0, hyh⟩ := hInB
    simp only [List.foldl_cons]
    rw [ih (place acc t) (place_wf acc w h t ⟨hwf.1, hwf.2⟩)
      (fun t' ht' => hl t' (by simp [ht']))]
    unfold placedAt
    rw [List.filter_cons]
    by_cases hmatch : (t.x == (x : Int) && t.y == (y : Int)) = true
    · rw [if_pos hmatch]
      rw [Bool.and_eq_true, beq_iff_eq, beq_iff_eq] at hmatch
      obtain ⟨hxe, hye⟩ := hmatch
      rw [List.getLast?_cons]
      cases hfl : (l.filter fun u => u.x == (x : Int) && u.y == (y : Int)).getLast? with
      | some u => simp [placedAt, hfl]
      | none =>
        simp only [placedAt, hfl, Option.map_none', Option.getD_none,
          Option.getD_some, Option.map_some']
        rw [place, get2d_set2d acc w h t.y.toNat t.x.toNat (some t) hwf
          (by omega) (by omega) y x, if_pos ⟨by omega, by omega⟩]
    · rw [if_neg hmatch]
      rw [Bool.and_eq_true, not_and_or] at hmatch
      cases hfl : placedAt l y x with
      | some u => simp [placedAt] at hfl; simp [placedAt, hfl]
      | none =>
        simp only [placedAt] at hfl
        simp only [placedAt, hfl, Option.map_none', Option.getD_none]
        rw [place, get2d_set2d acc w h t.y.toNat t.x.toNat (some t) hwf
          (by omega) (by omega) y x, if_neg]
        intro ⟨hye, hxe⟩
        rcases hmatch with hm | hm <;> rw [beq_iff_eq] at hm <;> omega

theorem foldl_place_wf (l : List Tile) (acc : Grid) (w h : Nat)
    (hwf : GridWF acc w h) : GridWF (l.foldl place acc) w h := by
  induction l generalizing acc with
  | nil => exact hwf
  | cons t l ih => exact ih _ (place_wf _ _ _ _ hwf)

/-- An in-range cell read is a plain double index. -/
theorem get2d_eq_getElem (g : Grid) (y x : Nat) (hy : y < g.length)
    (hx : x < g[y].length) : get2d g y x = g[y][x] := by
  simp [get2d, List.getD_eq_getElem?_getD, List.getElem?_eq_getElem hy,
    List.getElem?_eq_getElem hx]

/-- Two equally-shaped grids agreeing on every in-range cell are equal. -/
theorem grid_ext (g1 g2 : Grid) (w h : Nat) (h1 : GridWF g1 w h)
    (h2 : GridWF g2 w h)
    (hcell : ∀ y x, y < h → x < w → get2d g1 y x = get2d g2 y x) : g1 = g2 := by
  apply List.ext_getElem?
  intro y
  rcases Nat.lt_or_ge y h with hy | hy
  · have hy1 : y < g1.length := by rw [h1.1]; omega
    have hy2 : y < g2.length := by rw [h2.1]; omega
    rw [List.getElem?_eq_getElem hy1, List.getElem?_eq_getElem hy2]
    congr 1
    apply List.ext_getElem?
    intro x
    have hr1 : g1[y].length = w := h1.2 _ (List.getElem_mem hy1)
    have hr2 : g2[y].length = w := h2.2 _ (List.getElem_mem hy2)
    rcases Nat.lt_or_ge x w with hx | hx
    · have hx1 : x < g1[y].length := by omega
      have hx2 : x < g2[y].length := by omega
      rw [List.getElem?_eq_getElem hx1, List.getElem?_eq_getElem hx2]
      have hc := hcell y x hy hx
      rw [get2d_eq_getElem g1 y x hy1 hx1, get2d_eq_getElem g2 y x hy2 hx2] at hc
      rw [hc]
    · rw [List.getElem?_eq_none (by omega), List.getElem?_eq_none (by omega)]
  · rw [List.getElem?_eq_none (by rw [h1.1]; omega),
      List.getElem?_eq_none (by rw [h2.1]; omega)]

/-- In a coordinate-faithful grid, the winning tile at `(x, y)` is exactly the
cell's occupant. -/
theorem placedAt_unsortTiles (g : Grid) (w h : Nat) (hwf : GridWF g w h)
    (hinv : GridInv g w h) (y x : Nat) (hy : y < h) (hx : x < w) :
    placedAt (Schematic.unsortTiles g) y x = get2d g y x := by
  cases hcell : get2d g y x with
  | some t =>
    obtain ⟨hxe, hye, _, _⟩ := hinv y x t hcell
    apply getLast?_all_eq
    · apply List.ne_nil_of_mem (a := t)
      rw [List.mem_filter]
      refine ⟨(mem_unsortTiles g w h hwf t).mpr ⟨y, x, hy, hx, hcell⟩, ?_⟩
      rw [Bool.and_eq_true, beq_iff_eq, beq_iff_eq]
      exact ⟨hxe, hye⟩
    · intro u hu
      rw [List.mem_filter] at hu
      obtain ⟨humem, hupred⟩ := hu
      rw [Bool.and_eq_true, beq_iff_eq, beq_iff_eq] at hupred
      rw [mem_unsortTiles g w h hwf u] at humem
      obtain ⟨y', x', hy', hx', hcell'⟩ := humem
      obtain ⟨hxe', hye', _, _⟩ := hinv y' x' u hcell'
      have hxx : x' = x := by omega
      have hyy : y' = y := by omega
      subst hxx
      subst hyy
      rw [hcell] at hcell'
      exact (Option.some.inj hcell').symm
  | none =>
    rw [placedAt, List.getLast?_eq_none_iff, List.filter_eq_nil_iff]
    intro u humem hupred
    rw [Bool.and_eq_true, beq_iff_eq, beq_iff_eq] at hupred
    rw [mem_unsortTiles g w h hwf u] at humem
    obtain ⟨y', x', hy', hx', hcell'⟩ := humem
    obtain ⟨hxe', hye', _, _⟩ := hinv y' x' u hcell'
    have hxx : x' = x := by omega
    have hyy : y' = y := by omega
    subst hxx
    subst hyy
    rw [hcell] at hcell'
    cases hcell'

/-- Regridding: sorting the unsorted tile list of a well-formed grid whose
tiles sit at their own coordinates reproduces the grid exactly. -/
theorem sortTiles_unsortTiles (g : Grid) (w h : Nat)
    (hwf : GridWF g w h) (hinv : GridInv g w h) :
    Schematic.sortTiles ((Schematic.unsortTiles g).map some) w h = .ok g := by
  have hmem : ∀ t ∈ Schematic.unsortTiles g, InB t w h := by
    intro t ht
    rw [mem_unsortTiles g w h hwf t] at ht
    obtain ⟨y, x, hy, hx, hcell⟩ := ht
    obtain ⟨hxe, hye, _, _⟩ := hinv y x t hcell
    exact ⟨by omega, by omega, by omega, by omega⟩
  rw [Schematic.sortTiles, sortTilesGo_map_some w h _ _ hmem]
  congr 1
  apply grid_ext _ _ w h (foldl_place_wf _ _ w h (blankGrid_wf w h)) hwf
  intro y x hy hx
  rw [foldl_place_get w h _ _ (blankGrid_wf w h) hmem y x hy hx,
    get2d_blankGrid, placedAt_unsortTiles g w h hwf hinv y x hy hx]
  cases get2d g y x <;> simp

/-! ## Machinery: wire composition -/

/-- The layout of the decompressed payload (spec §6): width, height, tag
pairs, block-name table, tile count, tile records. -/
def payloadBytes (w h : Nat) (tags : List (UStr × UStr)) (blocks : List UStr)
    (count : Int) (records : Bytes) : Bytes :=
  u16enc w ++ u16enc h ++ u8enc tags.length
  ++ tags.flatMap (fun kv => writeUTF8 kv.1 ++ writeUTF8 kv.2)
  ++ u8enc blocks.length ++ blocks.flatMap writeUTF8
  ++ i32enc count ++ records

/-- One tile record: block id, packed position, configuration, rotation. -/
def recordBytes (m : Tile × Nat) : Bytes :=
  u8enc m.2 ++ i32enc (Point2.pack m.1.x m.1.y)
  ++ TypeIO.writeObject m.1.config ++ u8enc m.1.rotation.toNat

theorem write_eq (s : Schematic) :
    Schematic.write s = Schematic.headerBytes ++ u8enc s.version.toNat
      ++ deflate (payloadBytes s.width s.height s.tags
        (Schematic.getBlockMap (Schematic.unsortTiles s.tiles)).1
        ((Schematic.getBlockMap (Schematic.unsortTiles s.tiles)).2.length : Int)
        ((Schematic.getBlockMap (Schematic.unsortTiles s.tiles)).2.flatMap
          recordBytes)) := by
  simp only [Schematic.write, payloadBytes, List.append_assoc]
  have hfun : (fun (m : Tile × Nat) => u8enc m.2 ++ (i32enc (Point2.pack m.1.x m.1.y)
      ++ ( TypeIO.writeObject m.1.config ++ u8enc m.1.rotation.toNat))) = recordBytes := by
    funext m
    simp [recordBytes]
  rw [hfun]

/-- `Schematic.read` on a well-framed buffer reduces to the payload parse. -/
theorem read_eq (payload : Bytes) :
    Schematic.read (Schematic.headerBytes ++ [1] ++ deflate payload) =
      Schematic.readBody 1 payload := rfl

/-- `Schematic.read` past a valid header: the fate of the buffer rests with
`inflate`. -/
theorem read_frame (b : Bytes) :
    Schematic.read (Schematic.headerBytes ++ [1] ++ b) =
      match inflate b with
      | none => .fatal .zlibError
      | some data => Schematic.readBody 1 data := by
  unfold Schematic.read
  have hhd : Schematic.readHeader (Schematic.headerBytes ++ [1] ++ b) =
      Res.ok 1 b := rfl
  have hdrop : List.drop 5 (Schematic.headerBytes ++ [1] ++ b) = b := rfl
  rw [hhd, hdrop]

/-- A fully valid, in-bounds, named tile record decodes to its tile. -/
theorem readTile_ok (blocks : List UStr) (w h : Nat) (t : Tile) (i : Nat)
    (r : Bytes)
    (hi : i < 128) (hname : blocks[i]? = some t.name)
    (hnm1 : t.name ≠ []) (hnm2 : t.name ≠ Schematic.airName)
    (hrot : t.rotation = 0 ∨ t.rotation = 1 ∨ t.rotation = 2 ∨ t.rotation = 3)
    (hcfg : ConfigValid t.config)
    (hx0 : 0 ≤ t.x) (hxw : t.x < (w : Int)) (hy0 : 0 ≤ t.y) (hyh : t.y < (h : Int))
    (hw : w ≤ 128) (hh : h ≤ 128) :
    Schematic.readTile blocks w h (recordBytes (t, i) ++ r) = .ok (some t) r := by
  obtain ⟨hp1, hp2⟩ := Point2.pack_in_i32_range t.x t.y
  have hunpack : Point2.unpack (Point2.pack t.x t.y) = (t.x, t.y) :=
    Point2.unpack_pack _ _ (by omega) (by omega) (by omega) (by omega)
  have hrotnat : ((t.rotation.toNat : Nat) : Int) = t.rotation := by omega
  simp only [Schematic.readTile, recordBytes, List.append_assoc, DecM.bind_run,
    readInt8_u8enc i hi, readInt32BE_i32enc _ hp1 hp2,
    TypeIO.readObject_writeObject t.config hcfg,
    readInt8_u8enc t.rotation.toNat (by omega), hunpack, hrotnat]
  rw [if_pos (by omega : (0 : Int) ≤ (i : Int))]
  simp only [Int.toNat_natCast, hname]
  rw [if_pos hrot, if_pos ⟨hxw, hyh⟩, if_neg (by tauto)]
  rfl

/-- A record with valid rotation but coordinates at or beyond the right/top
bounds yields the returned out-of-bounds error. -/
theorem readTile_oob (blocks : List UStr) (w h : Nat) (i : Nat) (x y : Int)
    (cfg : BlockConfig) (rot : Int) (r : Bytes)
    (hi : i < 128)
    (hx1 : -32768 ≤ x) (hx2 : x < 32768) (hy1 : -32768 ≤ y) (hy2 : y < 32768)
    (hcfg : ConfigValid cfg)
    (hrot : rot = 0 ∨ rot = 1 ∨ rot = 2 ∨ rot = 3)
    (hoob : (w : Int) ≤ x ∨ (h : Int) ≤ y) :
    Schematic.readTile blocks w h
      ((u8enc i ++ i32enc (Point2.pack x y) ++ TypeIO.writeObject cfg
        ++ u8enc rot.toNat) ++ r) = .err (.outOfBounds x y) := by
  obtain ⟨hp1, hp2⟩ := Point2.pack_in_i32_range x y
  have hunpack : Point2.unpack (Point2.pack x y) = (x, y) :=
    Point2.unpack_pack _ _ hx1 hx2 hy1 hy2
  have hrotnat : ((rot.toNat : Nat) : Int) = rot := by omega
  simp only [Schematic.readTile, List.append_assoc, DecM.bind_run,
    readInt8_u8enc i hi, readInt32BE_i32enc _ hp1 hp2,
    TypeIO.readObject_writeObject cfg hcfg,
    readInt8_u8enc rot.toNat (by omega), hunpack, hrotnat]
  rw [if_pos hrot, if_neg (by omega : ¬(x < (w : Int) ∧ y < (h : Int)))]
  rfl

/-- The JavaScript-object fold that `Schematic.read`'s tag loop performs. -/
def tagsFold (tags : List (UStr × UStr)) : List (UStr × UStr) :=
  tags.foldl (fun m kv => Schematic.jsUpsert m kv.1 kv.2) []

/-- Pointwise tag-pair round-trip. -/
theorem readTagPair (kv : UStr × UStr) (h1 : kv.1.length < 65536)
    (h2 : kv.2.length < 65536) (r : Bytes) :
    (do
      let k ← readUTF8
      let v ← readUTF8
      Pure.pure (k, v) : DecM (UStr × UStr))
        ((writeUTF8 kv.1 ++ writeUTF8 kv.2) ++ r) = .ok kv r := by
  simp only [List.append_assoc, DecM.bind_run, readUTF8_writeUTF8 kv.1 h1,
    readUTF8_writeUTF8 kv.2 h2, DecM.pure_run]

/-- The payload parse on a well-formed payload with an honest tile count
reduces to the tile-record loop. -/
theorem readPayload_payloadBytes (w h : Nat) (tags : List (UStr × UStr))
    (blocks : List UStr) (count : Int) (records : Bytes)
    (hw : w ≤ 128) (hh : h ≤ 128)
    (htc : tags.length ≤ 255)
    (hts : ∀ kv ∈ tags, kv.1.length < 65536 ∧ kv.2.length < 65536)
    (hbc : blocks.length ≤ 255)
    (hbs : ∀ b ∈ blocks, b.length < 65536)
    (hc0 : 0 ≤ count) (hcwh : count ≤ ((w * h : Nat) : Int)) :
    Schematic.readPayload (payloadBytes w h tags blocks count records) =
      match readList (Schematic.readTile blocks w h) count.toNat records with
      | .ok ot rest => .ok (w, h, tagsFold tags, deriveLabels (tagsFold tags), ot) rest
      | .err e => .err e
      | .fatal f => .fatal f := by
  have hwh : (w * h : Nat) ≤ 16384 := by
    calc w * h ≤ 128 * 128 := Nat.mul_le_mul hw hh
    _ = 16384 := rfl
  have htagread := readList_flatMap (do
      let k ← readUTF8
      let v ← readUTF8
      Pure.pure (k, v) : DecM (UStr × UStr))
    (fun kv => writeUTF8 kv.1 ++ writeUTF8 kv.2) tags
    (u8enc blocks.length ++ (blocks.flatMap writeUTF8 ++ (i32enc count ++ records)))
    (fun kv hkv r' => readTagPair kv (hts kv hkv).1 (hts kv hkv).2 r')
  have hblockread := readList_flatMap readUTF8 writeUTF8 blocks
    (i32enc count ++ records)
    (fun b hb r' => readUTF8_writeUTF8 b (hbs b hb) r')
  simp only [Schematic.readPayload, Schematic.readTags, payloadBytes,
    List.append_assoc, DecM.bind_run,
    readUInt16BE_u16enc w (by omega), readUInt16BE_u16enc h (by omega)]
  rw [if_neg (by omega : ¬(w > 128 ∨ h > 128))]
  simp only [DecM.bind_run, DecM.pure_run,
    readUInt8_u8enc tags.length (by omega), readUInt8_u8enc blocks.length (by omega),
    htagread, hblockread,
    readInt32BE_i32enc count (by omega) (by omega)]
  rw [if_neg (by omega : ¬count < 0),
    if_neg (by omega : ¬count > ((w * h : Nat) : Int))]
  simp only [DecM.bind_run, DecM.pure_run, tagsFold]
  cases readList (Schematic.readTile blocks w h) count.toNat records <;> rfl

/-- The payload parse with a declared tile count above `width * height`
returns the too-many-tiles error. -/
theorem readPayload_tooManyTiles (w h : Nat) (tags : List (UStr × UStr))
    (blocks : List UStr) (count : Int) (records : Bytes)
    (hw : w ≤ 128) (hh : h ≤ 128)
    (htc : tags.length ≤ 255)
    (hts : ∀ kv ∈ tags, kv.1.length < 65536 ∧ kv.2.length < 65536)
    (hbc : blocks.length ≤ 255)
    (hbs : ∀ b ∈ blocks, b.length < 65536)
    (hclt : count < 2147483648) (hcgt : ((w * h : Nat) : Int) < count) :
    Schematic.readPayload (payloadBytes w h tags blocks count records) =
      .err (.tooManyTiles (w * h) count) := by
  have htagread := readList_flatMap (do
      let k ← readUTF8
      let v ← readUTF8
      Pure.pure (k, v) : DecM (UStr × UStr))
    (fun kv => writeUTF8 kv.1 ++ writeUTF8 kv.2) tags
    (u8enc blocks.length ++ (blocks.flatMap writeUTF8 ++ (i32enc count ++ records)))
    (fun kv hkv r' => readTagPair kv (hts kv hkv).1 (hts kv hkv).2 r')
  have hblockread := readList_flatMap readUTF8 writeUTF8 blocks
    (i32enc count ++ records)
    (fun b hb r' => readUTF8_writeUTF8 b (hbs b hb) r')
  simp only [Schematic.readPayload, Schematic.readTags, payloadBytes,
    List.append_assoc, DecM.bind_run,
    readUInt16BE_u16enc w (by omega), readUInt16BE_u16enc h (by omega)]
  rw [if_neg (by omega : ¬(w > 128 ∨ h > 128))]
  simp only [DecM.bind_run, DecM.pure_run,
    readUInt8_u8enc tags.length (by omega), readUInt8_u8enc blocks.length (by omega),
    htagread, hblockread,
    readInt32BE_i32enc count (by omega) (by omega)]
  rw [if_neg (by omega : ¬count < 0),
    if_pos (by omega : count > ((w * h : Nat) : Int))]
  rfl

/-- A successful sort establishes the grid invariant. -/
theorem sortTiles_ok_inv (l : List (Option Tile)) (w h : Nat) (g : Grid)
    (hok : Schematic.sortTiles l w h = .ok g) :
    GridWF g w h ∧ GridInv g w h := by
  obtain ⟨hwf, hcells⟩ := sortTilesGo_cells w h l (blankGrid w h) g
    (fun y x c => ∀ t, c = some t → t.x = (x : Int) ∧ t.y = (y : Int))
    hok (blankGrid_wf w h)
    (fun y x _ _ => by rw [get2d_blankGrid]; intro t ht; cases ht)
    (fun t _ hInB => by
      intro t' ht'
      cases ht'
      obtain ⟨h1, h2, h3, h4⟩ := hInB
      constructor <;> omega)
  refine ⟨hwf, ?_⟩
  intro y x t hcell
  rcases Nat.lt_or_ge y h with hy | hy
  · rcases Nat.lt_or_ge x w with hx | hx
    · obtain ⟨he1, he2⟩ := hcells y x hy hx t hcell
      exact ⟨he1, he2, hx, hy⟩
    · rw [get2d_oob g w h y x hwf (Or.inr hx)] at hcell
      cases hcell
  · rw [get2d_oob g w h y x hwf (Or.inl hy)] at hcell
    cases hcell

/-- Inverting the constructor: a successful `create` is exactly a successful
`sortTiles` with the fields copied over. -/
theorem create_ok_iff (height width : Nat) (version : Int)
    (tags : List (UStr × UStr)) (labels : Json) (tiles : List Tile)
    (s : Schematic) :
    Schematic.create height width version tags labels tiles = .ok s ↔
      Schematic.sortTiles (tiles.map some) width height = .ok s.tiles ∧
      s = ⟨height, width, version, tags, labels, s.tiles⟩ := by
  unfold Schematic.create
  cases hs : Schematic.sortTiles (tiles.map some) width height with
  | error f =>
    simp only [Except.map]
    constructor
    · intro h; cases h
    · rintro ⟨h1, _⟩; cases h1
  | ok g =>
    simp only [Except.map]
    constructor
    · intro h
      cases h
      exact ⟨rfl, rfl⟩
    · rintro ⟨h1, h2⟩
      cases h1
      rw [h2]

/-- Every schematic `Schematic.read` returns satisfies the grid invariant. -/
theorem read_ok_inv (input : Bytes) (s : Schematic)
    (hok : Schematic.read input = .ok s) :
    GridWF s.tiles s.width s.height ∧ GridInv s.tiles s.width s.height := by
  unfold Schematic.read at hok
  split at hok
  · cases hok
  · cases hok
  · split at hok
    · cases hok
    · unfold Schematic.readBody at hok
      split at hok
      · cases hok
      · cases hok
      · split at hok
        · cases hok
        · rename_i hsort
          cases hok
          exact sortTiles_ok_inv _ _ _ _ hsort

/-! ## Concrete fixtures used by witnesses and counterexamples -/

instance {ε α : Type} [DecidableEq ε] [DecidableEq α] : DecidableEq (Except ε α)
  | .error e, .error e' =>
    if h : e = e' then isTrue (by rw [h])
    else isFalse (fun hh => h (Except.error.inj hh))
  | .error _, .ok _ => isFalse (fun h => Except.noConfusion h)
  | .ok _, .error _ => isFalse (fun h => Except.noConfusion h)
  | .ok a, .ok a' =>
    if h : a = a' then isTrue (by rw [h])
    else isFalse (fun hh => h (Except.ok.inj hh))

instance (g : Grid) (w h : Nat) : Decidable (GridWF g w h) := by
  unfold GridWF
  infer_instance

instance (t : Tile) (w h : Nat) : Decidable (InB t w h) := by
  unfold InB
  infer_instance

/-- The bytes of `"copper"`. -/
def demoName : UStr := [99, 111, 112, 112, 101, 114]

/-- A demo tile at the origin with null configuration. -/
def demoTile : Tile := ⟨demoName, 0, 0, .null, 0⟩

/-- A 1×1 schematic holding `demoTile`. -/
def demoSchem : Schematic := ⟨1, 1, 1, [], .arr [], [[some demoTile]]⟩

/-- Did the operation return a value (as opposed to erroring or throwing)? -/
def RRes.isOk : RRes α → Bool
  | .ok _ => true
  | _ => false

/-- Did the operation return the out-of-bounds decode error? -/
def RRes.isOutOfBoundsErr : RRes α → Bool
  | .err (.outOfBounds _ _) => true
  | _ => false

/-- A framed buffer whose compressed section is a single byte that is not a
deflate stream. -/
def c3buf : Bytes := Schematic.headerBytes ++ [1] ++ [0]

/-- A framed 1×1 schematic whose single tile record names `"air"`. -/
def c4buf : Bytes :=
  Schematic.headerBytes ++ [1] ++ deflate
    ([0, 1, 0, 1] ++ [0] ++ [1] ++ writeUTF8 Schematic.airName ++ i32enc 1
      ++ (u8enc 0 ++ i32enc (Point2.pack 0 0) ++ TypeIO.writeObject .null
        ++ u8enc 0))

/-- A framed 1×1 schematic whose single tile record carries the packed
position (0, −1). -/
def c2buf : Bytes :=
  Schematic.headerBytes ++ [1] ++ deflate
    ([0, 1, 0, 1] ++ [0] ++ [1] ++ writeUTF8 [99] ++ i32enc 1
      ++ (u8enc 0 ++ i32enc (Point2.pack 0 (-1)) ++ TypeIO.writeObject .null
        ++ u8enc 0))

/-- A framed 1×1 schematic whose `"labels"` tag holds the JSON text `5`. -/
def c8buf : Bytes :=
  Schematic.headerBytes ++ [1] ++ deflate
    ([0, 1, 0, 1] ++ [1] ++ writeUTF8 labelsKey ++ writeUTF8 [53] ++ [0]
      ++ i32enc 0)

/-- The schematic `c8buf` decodes to: its labels field is the JSON number 5,
not a list of strings. -/
def c8schem : Schematic := ⟨1, 1, 1, [(labelsKey, [53])], Json.num 5, [[none]]⟩

/-! ## Claims -/

/-- C5: coordinate packing is a bijection on the coordinate domain the format
supports (16-bit signed halves): `unpack (pack x y) = (x, y)` for every valid
coordinate pair. -/
theorem c5_coordinate_packing_bijection (x y : Int)
    (hx1 : -32768 ≤ x) (hx2 : x < 32768) (hy1 : -32768 ≤ y) (hy2 : y < 32768) :
    Point2.unpack (Point2.pack x y) = (x, y) :=
  Point2.unpack_pack x y hx1 hx2 hy1 hy2

theorem c5_witness :
    ((-32768 : Int) ≤ -3 ∧ (-3 : Int) < 32768 ∧ (-32768 : Int) ≤ 7 ∧
      (7 : Int) < 32768) ∧
    Point2.unpack (Point2.pack (-3) 7) = (-3, 7) :=
  ⟨⟨by decide, by decide, by decide, by decide⟩,
    c5_coordinate_packing_bijection (-3) 7 (by decide) (by decide) (by decide)
      (by decide)⟩

/-- C3: contrary to the claim, a framed buffer whose body fails deflate
decompression makes `Schematic.read` raise the (uncaught) `inflateSync`
fault instead of returning a descriptive error value. -/
theorem c3_corrupt_payload_is_thrown (b : Bytes) (hb : inflate b = none) :
    Schematic.read (Schematic.headerBytes ++ [1] ++ b) = .fatal .zlibError := by
  rw [read_frame b, hb]

theorem c3_witness :
    inflate [0] = none ∧ Schematic.read c3buf = .fatal .zlibError :=
  ⟨by decide, c3_corrupt_payload_is_thrown [0] (by decide)⟩

/-- C4: contrary to the claim, a tile record resolving to the name `"air"` is
skipped by the loop but leaves a hole in the tile array, and the subsequent
`sortTiles` iteration throws a `TypeError` (reading `tile.x` of `undefined`)
instead of `Schematic.read` succeeding with the cell left empty. -/
theorem c4_air_record_crashes_read : Schematic.read c4buf = .fatal .typeError := by
  decide

/-- C10 counterexample: `getTileAt` is not total on all coordinate pairs —
row index 1 on a 1×1 schematic makes `this.tiles[y]` undefined and the `[x]`
access throw a `TypeError`. -/
theorem c10_counterexample :
    Schematic.getTileAt demoSchem 0 1 = .fatal .typeError := by decide

/-- C10 (amended): `getTileAt` is total — returning the tile or an empty
result, never a fault — for every `x`, whenever `0 ≤ y` and `y` is within the
row list. -/
theorem c10_getTileAt_total_when_row_exists (s : Schematic) (x y : Int)
    (hy0 : 0 ≤ y) (hy : y.toNat < s.tiles.length) :
    (Schematic.getTileAt s x y).isOk = true := by
  unfold Schematic.getTileAt
  rw [if_pos hy0, List.getElem?_eq_getElem hy]
  rfl

theorem c10_witness :
    ((0 : Int) ≤ 0 ∧ (0 : Int).toNat < demoSchem.tiles.length) ∧
    (Schematic.getTileAt demoSchem 5 0).isOk = true :=
  ⟨⟨by decide, by decide⟩,
    c10_getTileAt_total_when_row_exists demoSchem 5 0 (by decide) (by decide)⟩

/-- C8: contrary to the claim, the decoded `labels` field is not always a
list of strings: a `"labels"` tag holding the JSON text `5` parses
successfully and the number 5 is assigned to `labels` unchecked (the
TypeScript `string[]` annotation is not enforced). -/
theorem c8_labels_not_always_string_list :
    Schematic.read c8buf = .ok c8schem ∧ c8schem.labels.isStringArr = false := by
  refine ⟨by decide, rfl⟩

/-- C2 counterexample: a tile record whose unpacked coordinate is (0, −1) —
outside the grid — does not make `Schematic.read` return the out-of-bounds
error; the check `x < width && y < height` passes for negative values, and
the decode instead dies with the thrown `fail` in `sortTiles`. -/
theorem c2_counterexample :
    Schematic.read c2buf = .fatal (.sortFail 0 (-1) 1 1) ∧
    (Schematic.read c2buf).isOutOfBoundsErr = false := by
  refine ⟨by decide, by decide⟩

/-- C6: a declared tile count exceeding `width * height` makes
`Schematic.read` return the too-many-tiles error (naming the bound and the
offending count), whatever bytes follow. -/
theorem c6_too_many_tiles_rejected (w h : Nat) (tags : List (UStr × UStr))
    (blocks : List UStr) (count : Int) (records : Bytes)
    (hw : w ≤ 128) (hh : h ≤ 128)
    (htc : tags.length ≤ 255)
    (hts : ∀ kv ∈ tags, kv.1.length < 65536 ∧ kv.2.length < 65536)
    (hbc : blocks.length ≤ 255)
    (hbs : ∀ b ∈ blocks, b.length < 65536)
    (hclt : count < 2147483648) (hcgt : ((w * h : Nat) : Int) < count) :
    Schematic.read (Schematic.headerBytes ++ [1]
        ++ deflate (payloadBytes w h tags blocks count records)) =
      .err (.tooManyTiles (w * h) count) := by
  rw [read_eq]
  unfold Schematic.readBody
  rw [readPayload_tooManyTiles w h tags blocks count records hw hh htc hts hbc
    hbs hclt hcgt]

/-- The spec-side row-major traversal: y ascending, then x ascending within
the row, keeping occupied cells only. -/
def rowMajorTiles (g : Grid) : List Tile :=
  (List.range g.length).flatMap fun y =>
    (List.range (g.getD y []).length).filterMap fun x => get2d g y x

theorem filterMap_getD_range (row : List (Option Tile)) :
    (List.range row.length).filterMap (fun x => row.getD x none) =
      row.filterMap id := by
  induction row with
  | nil => simp
  | cons a row ih =>
    rw [List.length_cons, List.range_succ_eq_map, List.filterMap_cons,
      List.filterMap_map]
    have hcomp : ((fun x => (a :: row).getD x none) ∘ Nat.succ) =
        (fun x => row.getD x none) := by
      funext x
      simp [List.getD_cons_succ]
    rw [hcomp, ih]
    cases a <;> simp [List.getD_cons_zero, List.filterMap_cons]

theorem flatten_eq_range_flatMap (g : Grid) :
    g.flatten = (List.range g.length).flatMap (fun y => g.getD y []) := by
  induction g with
  | nil => simp
  | cons row g ih =>
    rw [List.flatten_cons, List.length_cons, List.range_succ_eq_map,
      List.flatMap_cons, List.flatMap_map]
    simp only [List.getD_cons_zero, List.getD_cons_succ]
    rw [ih]

theorem unsortTiles_eq_rowMajorTiles (g : Grid) :
    Schematic.unsortTiles g = rowMajorTiles g := by
  unfold Schematic.unsortTiles rowMajorTiles
  rw [flatten_eq_range_flatMap, List.filterMap_flatMap]
  congr 1
  funext y
  rw [← filterMap_getD_range (g.getD y [])]
  rfl

/-- C7: encoding is deterministic — `write` is a function of the grid, tags,
version and dimensions alone (two schematics equal on those fields produce
byte-identical output) — and the block-name table is each distinct block name
once, in first-appearance order, under the row-major (y ascending, then x
ascending, empty cells skipped) tile iteration. -/
theorem c7_write_deterministic :
    (∀ s t : Schematic, s.height = t.height → s.width = t.width →
      s.version = t.version → s.tags = t.tags → s.tiles = t.tiles →
      Schematic.write s = Schematic.write t) ∧
    (∀ g : Grid, (Schematic.getBlockMap (Schematic.unsortTiles g)).1 =
      internNames ((Schematic.unsortTiles g).map Tile.name)) ∧
    (∀ g : Grid, Schematic.unsortTiles g = rowMajorTiles g) := by
  refine ⟨?_, ?_, ?_⟩
  · rintro ⟨h1, w1, v1, tg1, lb1, ti1⟩ ⟨h2, w2, v2, tg2, lb2, ti2⟩ hh hw hv ht hti
    simp only at hh hw hv ht hti
    subst hh
    subst hw
    subst hv
    subst ht
    subst hti
    rfl
  · intro g
    exact Schematic.getBlockMap_names _
  · intro g
    exact unsortTiles_eq_rowMajorTiles g

/-- A second demo schematic: identical to `demoSchem` except for `labels`. -/
def demoSchemB : Schematic := ⟨1, 1, 1, [], .arr [.str [120]], [[some demoTile]]⟩

theorem c7_witness :
    (demoSchem.height = demoSchemB.height ∧ demoSchem.width = demoSchemB.width ∧
      demoSchem.version = demoSchemB.version ∧
      demoSchem.tags = demoSchemB.tags ∧ demoSchem.tiles = demoSchemB.tiles) ∧
    Schematic.write demoSchem = Schematic.write demoSchemB ∧
    (Schematic.getBlockMap (Schematic.unsortTiles demoSchem.tiles)).1 =
      internNames ((Schematic.unsortTiles demoSchem.tiles).map Tile.name) :=
  ⟨⟨rfl, rfl, rfl, rfl, rfl⟩,
    c7_write_deterministic.1 demoSchem demoSchemB rfl rfl rfl rfl rfl,
    c7_write_deterministic.2.1 demoSchem.tiles⟩

/-- C9 counterexample: `setTileAt` with an in-row-range `y` but `x` at the
grid width does not preserve the invariant — the JavaScript assignment
extends the row, storing a tile at column 1 of a width-1 schematic. -/
theorem c9_counterexample :
    Schematic.setTileAt demoSchem 1 0 demoTile =
      .ok ⟨1, 1, 1, [], .arr [],
        [[some demoTile, some { demoTile with x := 1, y := 0 }]]⟩ ∧
    ¬ GridInv [[some demoTile, some { demoTile with x := 1, y := 0 }]] 1 1 := by
  constructor
  · decide
  · intro hinv
    have hcell := hinv 0 1 { demoTile with x := 1, y := 0 } (by decide)
    exact absurd hcell.2.2.1 (by decide)

/-- C9 (amended): construction via `sortTiles` and decoding via `read`
establish the grid invariant (every stored tile's coordinates equal its grid
position and lie in bounds), and `setTileAt` preserves it *for in-bounds
arguments*, overwriting the tile's stored coordinates with `(x, y)`;
out-of-bounds `setTileAt` instead throws (y out of row range) or breaks the
invariant by extending the row (x at or beyond the width). -/
theorem c9_invariant_preservation :
    (∀ (tiles : List Tile) (w h : Nat) (g : Grid),
      Schematic.sortTiles (tiles.map some) w h = .ok g → GridInv g w h) ∧
    (∀ (input : Bytes) (s : Schematic),
      Schematic.read input = .ok s → GridInv s.tiles s.width s.height) ∧
    (∀ (s : Schematic) (x y : Int) (tile : Tile) (s' : Schematic),
      GridWF s.tiles s.width s.height → GridInv s.tiles s.width s.height →
      0 ≤ x → x < (s.width : Int) → 0 ≤ y → y < (s.height : Int) →
      Schematic.setTileAt s x y tile = .ok s' →
      GridInv s'.tiles s.width s.height ∧
        get2d s'.tiles y.toNat x.toNat = some { tile with x := x, y := y }) := by
  refine ⟨?_, ?_, ?_⟩
  · intro tiles w h g hok
    exact (sortTiles_ok_inv _ w h g hok).2
  · intro input s hok
    exact (read_ok_inv input s hok).2
  · intro s x y tile s' hwf hinv hx0 hxw hy0 hyh hset
    have hyn : y.toNat < s.tiles.length := by
      rw [hwf.1]; omega
    have hrow : (s.tiles[y.toNat]).length = s.width :=
      hwf.2 _ (List.getElem_mem hyn)
    unfold Schematic.setTileAt at hset
    rw [if_pos hy0, List.getElem?_eq_getElem hyn] at hset
    simp only at hset
    rw [if_pos hx0] at hset
    have hjs : Schematic.jsRowSet s.tiles[y.toNat] x.toNat
        (some { tile with x := x, y := y }) =
        (s.tiles[y.toNat]).set x.toNat (some { tile with x := x, y := y }) := by
      unfold Schematic.jsRowSet
      rw [if_pos (by omega)]
    rw [hjs] at hset
    cases hset
    have htiles : (s.tiles.set y.toNat
        ((s.tiles[y.toNat]).set x.toNat (some { tile with x := x, y := y }))) =
        set2d s.tiles y.toNat x.toNat (some { tile with x := x, y := y }) := by
      unfold set2d
      simp [List.getD_eq_getElem?_getD, List.getElem?_eq_getElem hyn]
    simp only [htiles]
    have hwf' := set2d_wf s.tiles s.width s.height y.toNat x.toNat
      (some { tile with x := x, y := y }) hwf
    constructor
    · intro y' x' t' hcell
      rcases Nat.lt_or_ge y' s.height with hy' | hy'
      · rcases Nat.lt_or_ge x' s.width with hx' | hx'
        · rw [get2d_set2d s.tiles s.width s.height y.toNat x.toNat _ hwf
            (by omega) (by omega) y' x'] at hcell
          split at hcell
          · rename_i heq
            cases hcell
            obtain ⟨hye, hxe⟩ := heq
            refine ⟨by simp; omega, by simp; omega, hx', hy'⟩
          · exact hinv y' x' t' hcell
        · rw [get2d_oob _ s.width s.height y' x' hwf' (Or.inr hx')] at hcell
          cases hcell
      · rw [get2d_oob _ s.width s.height y' x' hwf' (Or.inl hy')] at hcell
        cases hcell
    · rw [get2d_set2d s.tiles s.width s.height y.toNat x.toNat _ hwf
        (by omega) (by omega) y.toNat x.toNat, if_pos ⟨rfl, rfl⟩]

theorem c9_witness :
    (Schematic.sortTiles ([demoTile].map some) 1 1 = .ok [[some demoTile]] ∧
      GridInv [[some demoTile]] 1 1) ∧
    (Schematic.read c8buf = .ok c8schem ∧
      GridInv c8schem.tiles c8schem.width c8schem.height) ∧
    (GridWF demoSchem.tiles demoSchem.width demoSchem.height ∧
      Schematic.setTileAt demoSchem 0 0 demoTile = .ok demoSchem ∧
      GridInv demoSchem.tiles demoSchem.width demoSchem.height ∧
      get2d demoSchem.tiles 0 0 = some { demoTile with x := 0, y := 0 }) := by
  have h1 := c9_invariant_preservation.1 [demoTile] 1 1 [[some demoTile]]
    (by decide)
  have h2 := c9_invariant_preservation.2.1 c8buf c8schem (by decide)
  have h3 := c9_invariant_preservation.2.2 demoSchem 0 0 demoTile demoSchem
    (by decide) h1 (by decide) (by decide) (by decide) (by decide) (by decide)
  exact ⟨⟨by decide, h1⟩, ⟨by decide, h2⟩, ⟨by decide, by decide, h3.1, h3.2⟩⟩

/-- C2 (amended): a tile record with valid rotation whose unpacked coordinate
has `x ≥ width` or `y ≥ height`, reached after any run of well-formed
records, makes `Schematic.read` return the out-of-bounds error result.
(Negative coordinates are not covered: they pass the `x < width && y <
height` check, as `c2_counterexample` shows.) -/
theorem c2_oob_right_top_errors (w h : Nat) (tags : List (UStr × UStr))
    (blocks : List UStr) (goods : List Bytes) (i : Nat) (x y : Int)
    (cfg : BlockConfig) (rot : Int) (rest : Bytes) (count : Int)
    (hw : w ≤ 128) (hh : h ≤ 128) (htc : tags.length ≤ 255)
    (hts : ∀ kv ∈ tags, kv.1.length < 65536 ∧ kv.2.length < 65536)
    (hbc : blocks.length ≤ 255) (hbs : ∀ b ∈ blocks, b.length < 65536)
    (hgood : ∀ c ∈ goods, ∃ a, ∀ r',
      Schematic.readTile blocks w h (c ++ r') = .ok a r')
    (hi : i < 128)
    (hx1 : -32768 ≤ x) (hx2 : x < 32768) (hy1 : -32768 ≤ y) (hy2 : y < 32768)
    (hcfg : ConfigValid cfg)
    (hrot : rot = 0 ∨ rot = 1 ∨ rot = 2 ∨ rot = 3)
    (hoob : (w : Int) ≤ x ∨ (h : Int) ≤ y)
    (hc0 : 0 ≤ count) (hcwh : count ≤ ((w * h : Nat) : Int))
    (hcnt : goods.length < count.toNat) :
    Schematic.read (Schematic.headerBytes ++ [1]
        ++ deflate (payloadBytes w h tags blocks count
          (goods.flatten ++ ((u8enc i ++ i32enc (Point2.pack x y)
            ++ TypeIO.writeObject cfg ++ u8enc rot.toNat) ++ rest)))) =
      .err (.outOfBounds x y) := by
  rw [read_eq]
  unfold Schematic.readBody
  rw [readPayload_payloadBytes w h tags blocks count _ hw hh htc hts hbc hbs
    hc0 hcwh]
  rw [readList_err_after (Schematic.readTile blocks w h) goods _ rest
    (.outOfBounds x y) count.toNat hgood
    (fun r' => readTile_oob blocks w h i x y cfg rot r' hi hx1 hx2 hy1 hy2
      hcfg hrot hoob) hcnt]

theorem c2_witness :
    ((1 : Int) ≤ 5 ∨ (1 : Int) ≤ 0) ∧
    Schematic.read (Schematic.headerBytes ++ [1]
        ++ deflate (payloadBytes 1 1 [] [] 1
          (List.flatten [] ++ ((u8enc 0 ++ i32enc (Point2.pack 5 0)
            ++ TypeIO.writeObject .null ++ u8enc (0 : Int).toNat) ++ [])))) =
      .err (.outOfBounds 5 0) :=
  ⟨Or.inl (by decide),
    c2_oob_right_top_errors 1 1 [] [] [] 0 5 0 .null 0 [] 1
      (by decide) (by decide) (by decide) (by simp) (by decide) (by simp)
      (by simp) (by decide) (by decide) (by decide) (by decide) (by decide)
      (by decide) (by decide) (Or.inl (by decide)) (by decide) (by decide)
      (by decide)⟩

theorem c6_witness :
    (((1 * 1 : Nat) : Int) < 2 ∧ (2 : Int) < 2147483648) ∧
    Schematic.read (Schematic.headerBytes ++ [1]
        ++ deflate (payloadBytes 1 1 [] [] 2 [])) =
      .err (.tooManyTiles 1 2) :=
  ⟨⟨by decide, by decide⟩,
    c6_too_many_tiles_rejected 1 1 [] [] 2 []
      (by decide) (by decide) (by decide) (by simp) (by decide) (by simp)
      (by decide) (by decide)⟩

/-- C1 counterexample: the round-trip does not reproduce the label list when
`labels` is not the value derived from the tags — `write` never serializes
`labels`, and `read` rebuilds it from the (absent) `"labels"` tag. -/
theorem c1_counterexample :
    Schematic.create 1 1 1 [] (.arr [.str [120]]) [demoTile] = .ok demoSchemB ∧
    Schematic.read (Schematic.write demoSchemB) =
      .ok { demoSchemB with labels := .arr [] } ∧
    demoSchemB.labels ≠ .arr [] := by
  refine ⟨by decide, by decide, by decide⟩

/-- C1 (amended): decoding the encoding of a Schematic built from valid tiles
(positions in bounds, rotations in {0,1,2,3}, representable configuration
values, block names nonempty, not `"air"`, and under the wire-format limits:
version 1, dimensions ≤ 128, ≤ 255 tags with distinct keys, ≤ 128 distinct
block names) reproduces the schematic exactly — grid, tag map, and labels —
provided `labels` equals the value `read` derives from the tags. -/
theorem c1_roundtrip (height width : Nat) (tags : List (UStr × UStr))
    (labels : Json) (tiles : List Tile) (s : Schematic)
    (hw : width ≤ 128) (hh : height ≤ 128)
    (htc : tags.length ≤ 255)
    (hts : ∀ kv ∈ tags, kv.1.length < 65536 ∧ kv.2.length < 65536)
    (hnd : (tags.map Prod.fst).Nodup)
    (hlab : labels = deriveLabels tags)
    (htl : ∀ t ∈ tiles, InB t width height ∧
      (t.rotation = 0 ∨ t.rotation = 1 ∨ t.rotation = 2 ∨ t.rotation = 3) ∧
      ConfigValid t.config ∧ t.name ≠ [] ∧ t.name ≠ Schematic.airName ∧
      t.name.length < 65536)
    (hnames : (internNames (tiles.map Tile.name)).length ≤ 128)
    (hcreate : Schematic.create height width 1 tags labels tiles = .ok s) :
    Schematic.read (Schematic.write s) = .ok s := by
  obtain ⟨hsort, hs⟩ := (create_ok_iff height width 1 tags labels tiles s).mp hcreate
  obtain ⟨sh, sw, sv, st, sl, g⟩ := s
  simp only [Schematic.mk.injEq, and_true] at hs
  obtain ⟨rfl, rfl, rfl, rfl, rfl⟩ := hs
  obtain ⟨hwf, hinv⟩ := sortTiles_ok_inv _ _ _ _ hsort
  have hprov : ∀ t, t ∈ Schematic.unsortTiles g → t ∈ tiles := by
    obtain ⟨_, hcells⟩ := sortTilesGo_cells sw sh (tiles.map some)
      (blankGrid sw sh) g
      (fun _ _ c => ∀ t, c = some t → t ∈ tiles) hsort (blankGrid_wf _ _)
      (fun y x _ _ => by rw [get2d_blankGrid]; intro t ht; cases ht)
      (fun t hmem _ => by
        intro t' ht'
        cases ht'
        rcases List.mem_map.mp hmem with ⟨u, hu, hequ⟩
        cases hequ
        exact hu)
    intro t ht
    rw [mem_unsortTiles _ sw sh hwf t] at ht
    obtain ⟨y, x, hy, hx, hcell⟩ := ht
    exact hcells y x hy hx t hcell
  have hnames128 : (Schematic.getBlockMap (Schematic.unsortTiles g)).1.length ≤ 128 := by
    rw [Schematic.getBlockMap_names]
    refine le_trans (internNames_length_le _ (tiles.map Tile.name) ?_) hnames
    intro n hn
    rcases List.mem_map.mp hn with ⟨t, ht, rfl⟩
    exact List.mem_map_of_mem _ (hprov t ht)
  have hblockstr : ∀ b ∈ (Schematic.getBlockMap (Schematic.unsortTiles g)).1,
      b.length < 65536 := by
    intro b hb
    rw [Schematic.getBlockMap_names, internNames_mem] at hb
    rcases List.mem_map.mp hb with ⟨t, ht, rfl⟩
    exact (htl t (hprov t ht)).2.2.2.2.2
  have hcount : (Schematic.getBlockMap (Schematic.unsortTiles g)).2.length =
      (Schematic.unsortTiles g).length := by
    have := congrArg List.length (Schematic.getBlockMap_tiles (Schematic.unsortTiles g))
    simpa using this
  have hcountle := unsortTiles_length_le g sw sh hwf
  have hrt : ∀ p ∈ (Schematic.getBlockMap (Schematic.unsortTiles g)).2, ∀ r',
      Schematic.readTile (Schematic.getBlockMap (Schematic.unsortTiles g)).1
        sw sh (recordBytes p ++ r') = .ok (some p.1) r' := by
    intro p hp r'
    obtain ⟨hid, hidlt⟩ := Schematic.getBlockMap_ids (Schematic.unsortTiles g) p hp
    have hpu : p.1 ∈ Schematic.unsortTiles g := by
      rw [← Schematic.getBlockMap_tiles (Schematic.unsortTiles g)]
      exact List.mem_map_of_mem Prod.fst hp
    obtain ⟨⟨ha, hb, hc, hd⟩, hrot, hcfg, hn1, hn2, _⟩ := htl p.1 (hprov p.1 hpu)
    exact readTile_ok _ sw sh p.1 p.2 r' (by omega) hid hn1 hn2 hrot hcfg
      ha hb hc hd hw hh
  have hloop := readList_flatMap_map
    (Schematic.readTile (Schematic.getBlockMap (Schematic.unsortTiles g)).1
      sw sh)
    recordBytes (fun p => some p.1)
    (Schematic.getBlockMap (Schematic.unsortTiles g)).2 [] hrt
  rw [List.append_nil] at hloop
  have hmaps : (Schematic.getBlockMap (Schematic.unsortTiles g)).2.map
      (fun p => some p.1) = (Schematic.unsortTiles g).map some := by
    rw [show (fun p : Tile × Nat => some p.1) = (some ∘ Prod.fst) from rfl,
      ← List.map_map, Schematic.getBlockMap_tiles]
  rw [hmaps] at hloop
  have htf : tagsFold st = st := Schematic.foldl_jsUpsert_id st hnd
  rw [write_eq]
  dsimp only
  rw [show u8enc (1 : Int).toNat = [1] from rfl, read_eq]
  unfold Schematic.readBody
  rw [readPayload_payloadBytes sw sh st _ _ _ hw hh htc hts
    (by omega) hblockstr (by omega)
    (by rw [hcount]; exact_mod_cast hcountle)]
  rw [show ((Schematic.getBlockMap (Schematic.unsortTiles g)).2.length : Int).toNat
      = (Schematic.getBlockMap (Schematic.unsortTiles g)).2.length
    from Int.toNat_natCast _]
  rw [hloop, htf]
  dsimp only
  rw [sortTiles_unsortTiles g sw sh hwf hinv, ← hlab]

theorem c1_witness :
    ((.arr [] : Json) = deriveLabels [] ∧
      Schematic.create 1 1 1 [] (.arr []) [demoTile] = .ok demoSchem) ∧
    Schematic.read (Schematic.write demoSchem) = .ok demoSchem :=
  ⟨⟨by decide, by decide⟩,
    c1_roundtrip 1 1 [] (.arr []) [demoTile] demoSchem
      (by decide) (by decide) (by decide) (by simp) (by decide) (by decide)
      (by decide) (by decide) (by decide)⟩

end Msch
